import Mathlib

/-!
# CineScout — film identity resolution core, shallow embedding

This file embeds the core of the `cinescout` backend in Lean 4 and proves the
frozen claims about it.  The embedding follows the Python source:

* `backend/src/cinescout/utils/text.py` — `normalise_title`, `split_double_bill`,
  `slugify`.  Python regexes are translated step by step into executable list
  functions with Python's leftmost-match / greedy semantics.  Titles are
  newline-free in practice, so `.` is modelled as "any character" and `$` as
  end-of-string (identical to Python `re` on newline-free input); `\s` is the
  Unicode whitespace set Python uses for `str` patterns, and `\d` is modelled
  as the ASCII digits that occur in scraped titles and TMDb dates.
* `backend/src/cinescout/services/film_matcher.py` — `FilmMatcher`.  The
  database session is explicit state (`DBState`); `flush` raising
  `IntegrityError` is modelled as the insert violating a uniqueness constraint
  of the schema (primary key `films.id`, unique `films.tmdb_id`, unique
  `film_aliases.normalized_title`, foreign keys); paths that re-raise are
  modelled with `Except`.  The TMDb client and the rapidfuzz `fuzz.ratio`
  similarity are collaborator parameters (`TMDbClient`, `ratio`).
* `backend/src/cinescout/scripts/clean_placeholders.py` — the placeholder
  reconciler.
* `backend/src/cinescout/tasks/scrape_job.py` — the per-cinema showing
  persistence loop of `run_scrape_all`.
-/

/-! ## Python character classes -/

/-- Python `\s` / `str.strip()` whitespace for Unicode strings, by codepoint:
space, the ASCII control whitespace, the C1 separators, NEL, NBSP, and the
Unicode space separators. -/
def pyIsSpace (c : Char) : Bool :=
  let n := c.toNat
  n = 32 || n = 9 || n = 10 || n = 13 || n = 11 || n = 12 ||
  (28 <= n && n <= 31) || n = 0x85 || n = 0xa0 || n = 0x1680 ||
  (0x2000 <= n && n <= 0x200a) || n = 0x2028 || n = 0x2029 || n = 0x202f ||
  n = 0x205f || n = 0x3000

/-- `str.strip()`. -/
def pyStrip (l : List Char) : List Char :=
  ((l.dropWhile pyIsSpace).reverse.dropWhile pyIsSpace).reverse

/-- Strip trailing whitespace only (used for the part kept by an end-anchored sub). -/
def rstripWs (l : List Char) : List Char :=
  (l.reverse.dropWhile pyIsSpace).reverse

/-- The dash alternatives of `normalise_title`: hyphen, en dash, em dash. -/
def isDashChar (c : Char) : Bool :=
  c = '-' || c = '–' || c = '—'

/-! ## `normalise_title` (utils/text.py)

Each regex substitution of the source becomes one function, applied in the
source's order. -/

/-- After the dash of `\s+[-–—]\s+\S.*$`: at least one whitespace char, then a
non-whitespace char right after the (maximal) whitespace run. -/
def dashTailOk (l : List Char) : Bool :=
  match l with
  | [] => false
  | c :: _ => pyIsSpace c && !(l.dropWhile pyIsSpace).isEmpty

/-- Does `\s+[-–—]\s+\S.*$` match starting exactly here?  The dash characters
are not whitespace, so `\s+` must be the whole whitespace run up to the dash. -/
def dashMatchAt (l : List Char) : Bool :=
  let ws := l.takeWhile pyIsSpace
  let rest := l.dropWhile pyIsSpace
  !ws.isEmpty &&
    (match rest with
     | d :: after => isDashChar d && dashTailOk after
     | [] => false)

/-- `re.sub(r"\s+[-–—]\s+\S.*$", "", title)`: everything from the leftmost
match position (which runs to the end of the string) is removed. -/
def dashSub : List Char → List Char
  | [] => []
  | c :: rest => if dashMatchAt (c :: rest) then [] else c :: dashSub rest

/-- `re.sub(r"\s*\(\d{4}(?:-\d{2,4})?\)\s*$", "", title)`, parsed from the
right end: optional trailing whitespace, `)`, the digits (with optional
`-\d{2,4}` part), `(`, and the whitespace run before it. -/
def yearSuffixSub (l : List Char) : List Char :=
  match l.reverse.dropWhile pyIsSpace with
  | ')' :: r1 =>
    let ds := r1.takeWhile Char.isDigit
    (match r1.dropWhile Char.isDigit with
     | '(' :: r3 =>
       if ds.length = 4 then (r3.dropWhile pyIsSpace).reverse else l
     | '-' :: r4 =>
       if 2 ≤ ds.length && ds.length ≤ 4 then
         let ds2 := r4.takeWhile Char.isDigit
         (match r4.dropWhile Char.isDigit with
          | '(' :: r6 =>
            if ds2.length = 4 then (r6.dropWhile pyIsSpace).reverse else l
          | _ => l)
       else l
     | _ => l)
  | _ => l

/-- One attempt of `\s*\[[^\]]+\]\s*` at the current position: the whitespace
run, `[`, a nonempty bracket body, `]`, trailing whitespace.  Returns the
remainder after the match. -/
def bracketTryAt (l : List Char) : Option (List Char) :=
  match l.dropWhile pyIsSpace with
  | '[' :: r1 =>
    let inner := r1.takeWhile (fun c => c ≠ ']')
    (match r1.dropWhile (fun c => c ≠ ']') with
     | ']' :: r3 => if inner.isEmpty then none else some (r3.dropWhile pyIsSpace)
     | _ => none)
  | _ => none

/-- `re.sub(r"\s*\[[^\]]+\]\s*", " ", title)`: every non-overlapping match is
replaced by a single space.  Each match consumes at least one character, so
fuel `l.length` always suffices; the recursion is on the fuel to keep the
definition structurally recursive. -/
def bracketSubFuel : Nat → List Char → List Char
  | 0, l => l
  | _ + 1, [] => []
  | fuel + 1, c :: rest =>
    match bracketTryAt (c :: rest) with
    | some rem => ' ' :: bracketSubFuel fuel rem
    | none => c :: bracketSubFuel fuel rest

def bracketSub (l : List Char) : List Char := bracketSubFuel l.length l

/-- Scan of `\s*\([^)]*(?<!\d)\)\s*$` inside the no-`)` window before the final
`)`: the engine tries the `(` positions left to right; the body of a candidate
`(` is everything after it in the window, and the lookbehind requires it not to
end in a digit.  Returns the window part before the first viable `(`. -/
def noteFind : List Char → Option (List Char)
  | [] => none
  | '(' :: content =>
    let ok := match content.reverse with
      | [] => true
      | c :: _ => !c.isDigit
    if ok then some [] else (noteFind content).map (fun t => '(' :: t)
  | c :: rest => (noteFind rest).map (fun t => c :: t)

/-- `re.sub(r"\s*\([^)]*(?<!\d)\)\s*$", "", title)`: a trailing parenthetical
(whose body contains no `)` and does not end in a digit) is removed together
with the whitespace around it. -/
def noteSub (l : List Char) : List Char :=
  match l.reverse.dropWhile pyIsSpace with
  | ')' :: bodyR =>
    let seg := (bodyR.takeWhile (fun c => c ≠ ')')).reverse
    let preR := bodyR.dropWhile (fun c => c ≠ ')')
    (match noteFind seg with
     | some t1 => rstripWs (preR.reverse ++ t1)
     | none => l)
  | _ => l

/-- Case-insensitive literal prefix match (`re.IGNORECASE` on ASCII letters);
returns the remainder after the label. -/
def ciStartsWith : List Char → List Char → Option (List Char)
  | [], l => some l
  | _ :: _, [] => none
  | p :: ps, c :: cs => if p.toLower = c.toLower then ciStartsWith ps cs else none

/-- `re.sub(r"^<label>\s+", "", title, flags=re.IGNORECASE)` for one label. -/
def stripLabelOnce (label : List Char) (l : List Char) : List Char :=
  match ciStartsWith label l with
  | some rest =>
    (match rest with
     | c :: _ => if pyIsSpace c then rest.dropWhile pyIsSpace else l
     | [] => l)
  | none => l

/-- The prefix list of `normalise_title`, in source order (each pattern is the
label text up to and including the colon, followed by `\s+`). -/
def seriesLabels : List String :=
  ["Preview:", "Sneak Preview:", "Advanced Screening:", "Special Screening:",
   "Member Screening:", "Q&A:", "Intro:", "NT Live:", "ROH:",
   "Film Club:", "Dochouse:", "Doc House:", "Shorts:", "Shorts Club:",
   "Documentary:", "Relaxed:", "Relaxed Screening:", "Dementia Friendly:",
   "Silver Screen:", "Parent & Baby:", "Baby Cinema:", "Autism Friendly:"]

/-- The `for prefix in prefixes: title = re.sub(prefix, "", title, IGNORECASE)`
loop. -/
def stripLabels (l : List Char) : List Char :=
  seriesLabels.foldl (fun acc p => stripLabelOnce p.data acc) l

/-- Replace every maximal run of `inClass` characters by the single character
`rep`.  Instantiated for `re.sub(r"\s+", " ", ·)`, `re.sub(r"[\s_]+", "-", ·)`
and `re.sub(r"-+", "-", ·)`.  The flag records whether we are inside a run. -/
def collapseRuns (inClass : Char → Bool) (rep : Char) : Bool → List Char → List Char
  | _, [] => []
  | inRun, c :: rest =>
    if inClass c then
      (if inRun then collapseRuns inClass rep true rest
       else rep :: collapseRuns inClass rep true rest)
    else c :: collapseRuns inClass rep false rest

/-- `normalise_title` from `utils/text.py`, steps in source order. -/
def normalise_title (s : String) : String :=
  let t0 := pyStrip s.data
  let t1 := dashSub t0
  let t2 := yearSuffixSub t1
  let t3 := bracketSub t2
  let t4 := noteSub t3
  let t5 := stripLabels t4
  let t6 := collapseRuns pyIsSpace ' ' false t5
  String.mk (pyStrip t6)

/-! ## `slugify` (utils/text.py) -/

def isSlugKeep (c : Char) : Bool :=
  ('a' ≤ c && c ≤ 'z') || ('0' ≤ c && c ≤ '9') || c = '-'

/-- `slugify` from `utils/text.py`: lowercase, runs of whitespace or `_` to a
hyphen, drop every other non-`[a-z0-9-]` character, collapse hyphen runs, trim
hyphens. -/
def slugify (s : String) : String :=
  let t0 := s.data.map Char.toLower
  let t1 := collapseRuns (fun c => pyIsSpace c || c = '_') '-' false t0
  let t2 := t1.filter isSlugKeep
  let t3 := collapseRuns (fun c => c = '-') '-' false t2
  String.mk ((t3.dropWhile (fun c => c = '-')).reverse.dropWhile (fun c => c = '-')).reverse

-- scratch sanity checks (mirroring tests/unit/test_text.py)
example : normalise_title "Nosferatu (2024)" = "Nosferatu" := by decide
example : normalise_title "The Crown (2016-23)" = "The Crown" := by decide
example : normalise_title "Preview: The Film" = "The Film" := by decide
example : normalise_title "Nosferatu [35mm]" = "Nosferatu" := by decide
example : normalise_title "Nosferatu [Q&A] (2024)" = "Nosferatu" := by decide
example : normalise_title "Nosferatu (Director's Cut)" = "Nosferatu" := by decide
example : normalise_title "Mission: Impossible (1996)" = "Mission: Impossible" := by decide
example : normalise_title "The   Film" = "The Film" := by decide
example : normalise_title "  The Film  " = "The Film" := by decide
example : normalise_title "" = "" := by decide
example : normalise_title "PREVIEW: The Film" = "The Film" := by decide
example : normalise_title "Preview: The Film [35mm] (2024)" = "The Film" := by decide
example : normalise_title "Film — Restoration" = "Film" := by decide
example : normalise_title "Film - Subtitled" = "Film" := by decide
example : normalise_title "Spider-Man (2002)" = "Spider-Man" := by decide
example : slugify "The Grand Budapest Hotel" = "the-grand-budapest-hotel" := by decide
example : slugify "Mission: Impossible" = "mission-impossible" := by decide
example : slugify ":test:" = "test" := by decide
example : slugify "some_title" = "some-title" := by decide
example : slugify "" = "" := by decide

/-! ## `split_double_bill` (utils/text.py)

`re.match(r'^(.+\(\d{4}\))\s+and\s+(.+)$', title.strip(), re.IGNORECASE)`.
Group 1 is greedy, so the engine commits to the longest prefix ending in a
parenthesised four-digit year that is followed by whitespace, `and`
(case-insensitive), whitespace and a nonempty rest. -/

/-- Does this list end with `(dddd)` preceded by at least one character
(the `.+` of group 1)? -/
def endsWithParenYear (l : List Char) : Bool :=
  match l.reverse with
  | ')' :: d4 :: d3 :: d2 :: d1 :: '(' :: rest =>
    d1.isDigit && d2.isDigit && d3.isDigit && d4.isDigit && !rest.isEmpty
  | _ => false

/-- Try to complete the match after group 1: `\s+and\s+(.+)$`.  The trailing
`\s+` is greedy, so group 2 normally starts at the first non-space character;
when everything after `and` is whitespace the engine backs off to leave a
single whitespace character for `(.+)`. -/
def parseAndRest (l : List Char) : Option (List Char) :=
  match l with
  | c :: _ =>
    if pyIsSpace c then
      (match l.dropWhile pyIsSpace with
       | a :: n :: d :: r2 =>
         if a.toLower = 'a' && n.toLower = 'n' && d.toLower = 'd' then
           (match r2 with
            | c2 :: _ =>
              if pyIsSpace c2 then
                (match r2.dropWhile pyIsSpace with
                 | [] => if 2 ≤ r2.length then some (r2.drop (r2.length - 1)) else none
                 | b => some b)
              else none
            | [] => none)
         else none
       | _ => none)
    else none
  | [] => none

/-- The double-bill regex match: the longest group-1 split that completes.
Returns (group 1, group 2). -/
def deMatch (l : List Char) : Option (List Char × List Char) :=
  (List.range (l.length + 1)).reverse.findSome? (fun k =>
    let A := l.take k
    if endsWithParenYear A then
      (parseAndRest (l.drop k)).map (fun B => (A, B))
    else none)

/-- `split_double_bill` from `utils/text.py`. -/
def split_double_bill (title : String) : List String :=
  match deMatch (pyStrip title.data) with
  | some (A, B) =>
    let parts := [normalise_title (String.mk (pyStrip A)),
                  normalise_title (String.mk (pyStrip B))]
    let valid := parts.filter (fun p => p.length != 0 && 2 ≤ p.length)
    if valid.length = 2 then valid else [normalise_title title]
  | none => [normalise_title title]

-- scratch sanity checks (mirroring the docstring examples)
example : split_double_bill "The Devil-Doll (1936) and Witchcraft (1964)" =
    ["The Devil-Doll", "Witchcraft"] := by decide
example : split_double_bill "Near Dark (1987) and Blue Steel (1990)" =
    ["Near Dark", "Blue Steel"] := by decide
example : split_double_bill "Love Story" = ["Love Story"] := by decide
example : split_double_bill "Crime and Punishment" = ["Crime and Punishment"] := by decide


/-! ## Data model (models/film.py, models/film_alias.py, models/showing.py)

Rows are values; the autoincrement surrogate keys of `film_aliases` and
`showings` are omitted (no code under consideration reads them).  `DateTime`
start times are modelled as integers (only equality on them is used).

Modelled from the spec: `models/base.py` (the declarative `Base` /
`TimestampMixin`) is not part of the snapshot; spec §3 lists `cast` among
CanonicalFilm's optional attributes, so `Film` carries a `cast` field and the
constructor accepts it. -/

structure Film where
  id : String
  title : String
  year : Option Nat
  tmdb_id : Option Nat
  directors : Option (List String)
  countries : Option (List String)
  cast : Option (List String)
  overview : Option String
  poster_path : Option String
  runtime : Option Nat
deriving DecidableEq, Repr

structure FilmAlias where
  normalized_title : String
  film_id : String
deriving DecidableEq, Repr

structure Showing where
  cinema_id : String
  film_id : String
  start_time : Int
  booking_url : Option String
  screen_name : Option String
  format_tags : Option String
  price : Option ℚ
  raw_title : Option String
deriving DecidableEq, Repr

/-- The shared store: `films`, `film_aliases` and `showings` tables, in
insertion order. -/
structure DBState where
  films : List Film
  aliases : List FilmAlias
  showings : List Showing
deriving DecidableEq, Repr

/-- SQLAlchemy's `Result.scalar_one_or_none`: `None` for no rows, the row for
exactly one, `MultipleResultsFound` otherwise. -/
def scalarOneOrNone {α : Type} : List α → Except String (Option α)
  | [] => .ok none
  | [a] => .ok (some a)
  | _ => .error "MultipleResultsFound"

/-! Schema constraints (alembic initial schema): used as state invariants. -/

/-- Pairwise distinctness of a key across a list. -/
def uniqueKeys {α β : Type} [BEq β] (key : α → β) : List α → Bool
  | [] => true
  | x :: xs => xs.all (fun y => !(key y == key x)) && uniqueKeys key xs

/-- Primary key `films.id`. -/
def filmsIdUnique (db : DBState) : Bool := uniqueKeys Film.id db.films

/-- Nullable-unique `films.tmdb_id`. -/
def tmdbIdUnique : List Film → Bool
  | [] => true
  | x :: xs =>
    (match x.tmdb_id with
     | some t => xs.all (fun y => !(y.tmdb_id == some t))
     | none => true) && tmdbIdUnique xs

/-- Unique constraint `uq_normalized_title` on `film_aliases`. -/
def aliasTitleUnique (db : DBState) : Bool :=
  uniqueKeys FilmAlias.normalized_title db.aliases

/-- Foreign key `film_aliases.film_id → films.id`. -/
def aliasFilmExists (db : DBState) : Bool :=
  db.aliases.all (fun a => db.films.any (fun f => f.id == a.film_id))

/-- Unique constraint `uq_cinema_film_time` on `showings`. -/
def showingKeyUnique (db : DBState) : Bool :=
  uniqueKeys (fun s => (s.cinema_id, s.film_id, s.start_time)) db.showings

/-! ## TMDb collaborator (services/tmdb_client.py, consumed contract)

`search_film` returns the id of the first search result (the only field the
matcher reads) or `None`; `get_film_details` returns the detail payload with
the credit lists already extracted by `extract_directors` / `extract_countries`
/ `extract_cast`. -/

structure TmdbDetails where
  title : Option String
  release_date : Option String
  overview : Option String
  poster_path : Option String
  runtime : Option Nat
  directors : List String
  countries : List String
  cast : List String

structure TMDbClient where
  search_film : String → Option Nat → Option Nat
  get_film_details : Nat → Option TmdbDetails

/-! ## FilmMatcher (services/film_matcher.py) -/

/-- `FilmMatcher.FUZZY_THRESHOLD`. -/
def FUZZY_THRESHOLD : ℚ := 85

/-- `select(Film).join(FilmAlias).where(FilmAlias.normalized_title == nt)`:
one `Film` row per (alias, film) join pair. -/
def aliasJoin (db : DBState) (nt : String) : List Film :=
  (db.aliases.filter (fun a => a.normalized_title == nt)).flatMap
    (fun a => db.films.filter (fun f => f.id == a.film_id))

/-- `FilmMatcher._check_alias`. -/
def check_alias (db : DBState) (nt : String) : Except String (Option Film) :=
  scalarOneOrNone (aliasJoin db nt)

/-- The best-score / best-film loop of `_fuzzy_match` (`score > best_score`
keeps the earlier film on ties). -/
def fuzzyBest (score : Film → ℚ) : List Film → ℚ → Option Film → ℚ × Option Film
  | [], b, f => (b, f)
  | x :: xs, b, f =>
    if b < score x then fuzzyBest score xs (score x) (some x)
    else fuzzyBest score xs b f

/-- `fuzz.ratio(normalized_title.lower(), film.title.lower())` with the ratio
function as a collaborator parameter. -/
def filmScore (ratio : String → String → ℚ) (nt : String) (f : Film) : ℚ :=
  ratio (String.mk (nt.data.map Char.toLower)) (String.mk (f.title.data.map Char.toLower))

/-- `FilmMatcher._fuzzy_match`. -/
def fuzzy_match (ratio : String → String → ℚ) (db : DBState) (nt : String) :
    Option Film :=
  if db.films.isEmpty then none
  else
    let bp := fuzzyBest (filmScore ratio nt) db.films 0 none
    if FUZZY_THRESHOLD ≤ bp.1 then bp.2 else none

/-- `re.search(r"\((\d{4})\)", s)`: leftmost parenthesised four-digit group. -/
def findParenYear : List Char → Option Nat
  | [] => none
  | '(' :: rest =>
    (match rest with
     | d1 :: d2 :: d3 :: d4 :: ')' :: _ =>
       if d1.isDigit && d2.isDigit && d3.isDigit && d4.isDigit then
         some ((((d1.toNat - 48) * 10 + (d2.toNat - 48)) * 10 + (d3.toNat - 48)) * 10
               + (d4.toNat - 48))
       else findParenYear rest
     | _ => findParenYear rest)
  | _ :: rest => findParenYear rest

/-- `FilmMatcher._extract_year`: `int(release_date[:4])`, `None` on falsy input
or a non-numeric prefix (TMDb dates are `YYYY-MM-DD`). -/
def extract_year (release_date : Option String) : Option Nat :=
  match release_date with
  | none => none
  | some s =>
    let p := s.data.take 4
    if !p.isEmpty && p.all Char.isDigit then
      some (p.foldl (fun a c => a * 10 + (c.toNat - 48)) 0)
    else none

/-- `FilmMatcher._generate_film_id` (`if year:` — a zero year is falsy). -/
def generate_film_id (title : String) (year : Option Nat) : String :=
  let slug := slugify title
  match year with
  | some y => if y ≠ 0 then slug ++ "-" ++ toString y else slug
  | none => slug

/-- `FilmMatcher._store_alias`: no-op when an alias row for the normalized
title exists; otherwise insert (the flush can only violate the
`film_aliases.film_id` foreign key here, the unique title was just checked). -/
def store_alias (db : DBState) (nt : String) (film_id : String) :
    Except String DBState := do
  let existing ← scalarOneOrNone (db.aliases.filter (fun a => a.normalized_title == nt))
  match existing with
  | some _ => .ok db
  | none =>
    if db.films.any (fun f => f.id == film_id) then
      .ok { db with aliases := db.aliases ++ [⟨nt, film_id⟩] }
    else .error "IntegrityError"

/-- Does inserting `film` violate a uniqueness constraint of `films`
(primary key id, nullable-unique tmdb_id)? -/
def filmInsertViolation (db : DBState) (film : Film) : Bool :=
  db.films.any (fun f => f.id == film.id) ||
  (match film.tmdb_id with
   | some t => db.films.any (fun f => f.tmdb_id == some t)
   | none => false)

/-- `FilmMatcher._create_from_tmdb`.  On `IntegrityError` the session is
rolled back and the row re-read by primary key; if it is absent the error is
re-raised. -/
def create_from_tmdb (client : TMDbClient) (db : DBState) (nt : String) :
    Except String (Option Film × DBState) :=
  let year0 := findParenYear nt.data
  match client.search_film nt year0 with
  | none => .ok (none, db)
  | some tmdb_id =>
    match client.get_film_details tmdb_id with
    | none => .ok (none, db)
    | some details =>
      let title := details.title.getD nt
      let year := extract_year details.release_date
      let film_id := generate_film_id title year
      let film : Film :=
        ⟨film_id, title, year, some tmdb_id,
         if details.directors.isEmpty then none else some details.directors,
         if details.countries.isEmpty then none else some details.countries,
         if details.cast.isEmpty then none else some details.cast,
         details.overview, details.poster_path, details.runtime⟩
      if filmInsertViolation db film then
        match db.films.find? (fun f => f.id == film_id) with
        | some existing => .ok (some existing, db)
        | none => .error "IntegrityError"
      else .ok (some film, { db with films := db.films ++ [film] })

/-- `re.sub(r"\s*\(\d{4}\)\s*$", "", nt)` — the display-title year strip of
`_create_placeholder` (no year ranges here, unlike `normalise_title`). -/
def stripTrailingPlainYear (l : List Char) : List Char :=
  match l.reverse.dropWhile pyIsSpace with
  | ')' :: r1 =>
    let ds := r1.takeWhile Char.isDigit
    (match r1.dropWhile Char.isDigit with
     | '(' :: r3 => if ds.length = 4 then (r3.dropWhile pyIsSpace).reverse else l
     | _ => l)
  | _ => l

/-- `FilmMatcher._create_placeholder` (tmdb_id is `None`, so only the primary
key can be violated). -/
def create_placeholder (db : DBState) (nt : String) :
    Except String (Film × DBState) :=
  let year := findParenYear nt.data
  let display_title := String.mk (stripTrailingPlainYear nt.data)
  let film_id := generate_film_id display_title year
  let film : Film := ⟨film_id, display_title, year, none, none, none, none, none, none, none⟩
  if db.films.any (fun f => f.id == film_id) then
    match db.films.find? (fun f => f.id == film_id) with
    | some existing => .ok (existing, db)
    | none => .error "IntegrityError"
  else .ok (film, { db with films := db.films ++ [film] })

/-- `FilmMatcher.match_or_create_film`: normalize, then alias lookup, fuzzy
match, TMDb creation, placeholder creation, storing an alias after every
successful stage but the alias lookup itself. -/
def match_or_create_film (ratio : String → String → ℚ) (client : TMDbClient)
    (db : DBState) (raw_title : String) : Except String (Film × DBState) := do
  let nt := normalise_title raw_title
  match ← check_alias db nt with
  | some film => .ok (film, db)
  | none =>
    match fuzzy_match ratio db nt with
    | some film => do
      let db2 ← store_alias db nt film.id
      .ok (film, db2)
    | none => do
      match ← create_from_tmdb client db nt with
      | (some film, db1) => do
        let db2 ← store_alias db1 nt film.id
        .ok (film, db2)
      | (none, db1) => do
        let (film, db2) ← create_placeholder db1 nt
        let db3 ← store_alias db2 nt film.id
        .ok (film, db3)


/-! ## Placeholder reconciler (scripts/clean_placeholders.py)

The script's session (`AsyncSessionLocal`, database.py) is created with
`autoflush=False`, and the script itself never flushes before its single final
`commit()`.  The per-row re-points (`ps.film_id = real_film_id`,
`stale.film_id = real_film_id`) are therefore in-memory ORM mutations that
stay pending for the whole run and are invisible to every later `SELECT`;
`session.delete(...)` is pending likewise.  Only the bulk
`delete(Film).where(...)` executes on the server immediately, where the
schema's `ON DELETE CASCADE` (on `film_aliases.film_id` and
`showings.film_id`) also deletes every alias and showing still referencing
the placeholder.  At `commit()` the flush emits an `UPDATE ... WHERE
<primary key>` for every re-pointed row; each of those rows was cascaded
away, so the statement matches zero rows and SQLAlchemy raises
`StaleDataError` (a pending ORM `DELETE` of an already-deleted row only
warns).  The model tracks the server-side transaction state together with
the rows whose re-point is pending, and the commit fails exactly when a
re-point is pending. -/

/-- Replace the first occurrence of `old` by `new` (an ORM attribute update on
the selected row object). -/
def updateRow {α : Type} [DecidableEq α] (old new : α) : List α → List α
  | [] => []
  | x :: xs => if x = old then new :: xs else x :: updateRow old new xs

/-- The target lookup of `clean_placeholders`: an alias for the recomputed
normalized title that points to a different film with a TMDb id
(`select(FilmAlias).join(Film).where(...)`, `scalar_one_or_none`). -/
def reconcileTarget (db : DBState) (p : Film) : Except String (Option FilmAlias) :=
  let normalized := normalise_title p.title
  scalarOneOrNone
    ((db.aliases.filter (fun a =>
        a.normalized_title == normalized && !(a.film_id == p.id))).flatMap
      (fun a => (db.films.filter (fun f =>
          f.id == a.film_id && f.tmdb_id.isSome)).map (fun _ => a)))

/-- The showings re-link loop of one merge: nothing flushes during the loop,
so each conflict check (`select(Showing).where(cinema, real, start)`,
`scalar_one_or_none`) runs against the same server-side state; a conflicting
showing is marked for an ORM delete (pending — the cascade removes its row
anyway), a non-conflicting one is re-pointed in memory.  Returns the rows
left pending an `UPDATE`. -/
def stalePointShowings (server : DBState) (realId : String) :
    List Showing → Except String (List Showing)
  | [] => .ok []
  | ps :: rest => do
    let conflict ← scalarOneOrNone (server.showings.filter (fun t =>
        t.cinema_id == ps.cinema_id && t.film_id == realId
          && t.start_time == ps.start_time))
    let tail ← stalePointShowings server realId rest
    match conflict with
    | some _ => .ok tail
    | none => .ok (ps :: tail)

/-- The alias re-point loop of one merge, likewise unflushed: a stale alias
whose normalized title the real film already owns is marked for an ORM
delete, the rest are re-pointed in memory and left pending an `UPDATE`. -/
def stalePointAliases (server : DBState) (realId : String) :
    List FilmAlias → Except String (List FilmAlias)
  | [] => .ok []
  | st :: rest => do
    let conflict ← scalarOneOrNone (server.aliases.filter (fun a =>
        a.normalized_title == st.normalized_title && a.film_id == realId))
    let tail ← stalePointAliases server realId rest
    match conflict with
    | some _ => .ok tail
    | none => .ok (st :: tail)

/-- The running state of `clean_placeholders`: the server-side transaction
state (every `SELECT` and the bulk `DELETE` act on it) and the rows whose
re-point is pending in memory, plus the two counters. -/
structure ReconRun where
  server : DBState
  pendShowings : List Showing
  pendAliases : List FilmAlias
  merged : Nat
  kept : Nat
deriving DecidableEq, Repr

/-- The body of the `for placeholder in placeholders` loop: look up a real
target film; keep the placeholder if none; otherwise (not a dry run) run the
two re-point loops — their re-points stay pending — and execute the bulk
placeholder `DELETE`, whose `ON DELETE CASCADE` removes the placeholder's
showings and aliases server-side at once. -/
def mergePlaceholder (r : ReconRun) (p : Film) (dry_run : Bool) :
    Except String ReconRun := do
  match ← reconcileTarget r.server p with
  | none => .ok { r with kept := r.kept + 1 }
  | some a =>
    if dry_run then .ok { r with merged := r.merged + 1 }
    else
      let realId := a.film_id
      let updS ← stalePointShowings r.server realId
        (r.server.showings.filter (fun s => s.film_id == p.id))
      let updA ← stalePointAliases r.server realId
        (r.server.aliases.filter (fun al => al.film_id == p.id))
      .ok { server := ⟨r.server.films.filter (fun f => !(f.id == p.id)),
                       r.server.aliases.filter (fun al => !(al.film_id == p.id)),
                       r.server.showings.filter (fun s => !(s.film_id == p.id))⟩,
            pendShowings := r.pendShowings ++ updS,
            pendAliases := r.pendAliases ++ updA,
            merged := r.merged + 1, kept := r.kept }

def clean_placeholders_loop (dry_run : Bool) :
    List Film → ReconRun → Except String ReconRun
  | [], r => .ok r
  | p :: rest, r => do
    clean_placeholders_loop dry_run rest (← mergePlaceholder r p dry_run)

/-- `clean_placeholders`: iterate over the snapshot of films without a TMDb
id, then `session.commit()` (skipped on a dry run, where nothing changed
anyway): the commit's flush emits the pending re-point `UPDATE`s, each of
which matches zero rows — its target row was cascaded away — so any pending
re-point raises `StaleDataError` and the transaction rolls back; with none
pending, the commit succeeds.  The result is the committed state with the
merged/kept counters; an error means the script escaped with an exception
and the database kept its original contents. -/
def clean_placeholders (db : DBState) (dry_run : Bool) :
    Except String (DBState × Nat × Nat) := do
  let r ← clean_placeholders_loop dry_run
    (db.films.filter (fun f => f.tmdb_id.isNone)) ⟨db, [], [], 0, 0⟩
  if dry_run then .ok (r.server, r.merged, r.kept)
  else if r.pendShowings.isEmpty && r.pendAliases.isEmpty then
    .ok (r.server, r.merged, r.kept)
  else .error "StaleDataError"

/-! ## Scheduled scrape (tasks/scrape_job.py, `run_scrape_all`)

The job's session (`AsyncSessionLocal`) also has `autoflush=False`, which
shapes the batch semantics:

* `db.add(showing)` leaves the row *pending*; no `SELECT` sees it until a
  flush.  The matcher's creation stages (`_create_from_tmdb`,
  `_create_placeholder`, `_store_alias`) call `db.flush()`, which writes the
  pending showings along with the new film or alias; the alias-hit path
  never flushes.
* the `IntegrityError` recovery of the creation stages calls `db.rollback()`,
  which resets the whole transaction — including every pending or flushed
  but uncommitted showing of the batch — before re-reading the film by id
  from the committed database.
* a flush failure inside `_store_alias` is not caught there: the exception
  lands in the per-showing handler, but the session then raises
  (`PendingRollbackError`) on every further use until a rollback; the final
  `commit()`'s failure is answered by the per-cinema handler's rollback.

`Sess` is the session during one cinema's batch: `committed` is what the
database holds durably (any rollback restores it), `txn` the transaction's
server-side view — `committed` plus the changes flushed so far, which is
what every `SELECT` reads — `pend` the unflushed new showings, and `failed`
the unusable state after an uncaught flush failure.  `concurrent` models
showing rows another transaction inserts during the batch and commits before
the batch's conflicting flush: the batch's `SELECT`s never see them (they
are uncommitted when read), while a flushed `INSERT` on a colliding key
blocks until that writer commits and then raises `IntegrityError` at the
flush. -/

structure RawShowing where
  title : String
  start_time : Int
  booking_url : Option String
  screen_name : Option String
  format_tags : Option String
  price : Option ℚ
deriving DecidableEq, Repr

/-- The unique key `uq_cinema_film_time` of a showing row. -/
def showingKey (s : Showing) : String × String × Int :=
  (s.cinema_id, s.film_id, s.start_time)

/-- Key-level membership: some row with this unique key is present. -/
def keyMem (k : String × String × Int) (l : List Showing) : Bool :=
  l.any (fun t => showingKey t == k)

structure Sess where
  committed : DBState
  txn : DBState
  pend : List Showing
  failed : Bool
deriving DecidableEq, Repr

/-- Does flushing these pending rows (in order) violate `uq_cinema_film_time`?
Each `INSERT` fails when its key already exists among the given rows (the
transaction's plus the concurrent writer's) or a previously inserted pending
row. -/
def pendClash (existing : List Showing) : List Showing → Bool
  | [] => false
  | p :: rest =>
    keyMem (showingKey p) existing || pendClash (existing ++ [p]) rest

/-- `_store_alias` inside the batch: the existence check reads the
transaction view; a new alias is added and flushed, which also inserts the
pending showings.  An `IntegrityError` of that flush (an alias foreign-key
violation or a pending-showing collision) is not caught in `_store_alias`:
the session is left unusable (`failed`).  `none` = the call raised. -/
def store_alias_sess (concurrent : List Showing) (s : Sess) (nt fid : String) :
    Option Unit × Sess :=
  match scalarOneOrNone (s.txn.aliases.filter
      (fun a => a.normalized_title == nt)) with
  | .error _ => (none, s)
  | .ok (some _) => (some (), s)
  | .ok none =>
    if !(s.txn.films.any (fun f => f.id == fid))
        || pendClash (s.txn.showings ++ concurrent) s.pend then
      (none, { s with failed := true })
    else
      (some (), { s with
        txn := { s.txn with
                 aliases := s.txn.aliases ++ [⟨nt, fid⟩],
                 showings := s.txn.showings ++ s.pend },
        pend := [] })

/-- The `Film` row `_create_from_tmdb` constructs from the TMDb payload
(title from the details with the normalized title as fallback, year from the
release date, empty credit lists stored as `None`). -/
def tmdbFilm (nt : String) (tmdb_id : Nat) (details : TmdbDetails) : Film :=
  ⟨generate_film_id (details.title.getD nt) (extract_year details.release_date),
   details.title.getD nt, extract_year details.release_date, some tmdb_id,
   if details.directors.isEmpty then none else some details.directors,
   if details.countries.isEmpty then none else some details.countries,
   if details.cast.isEmpty then none else some details.cast,
   details.overview, details.poster_path, details.runtime⟩

/-- `_create_from_tmdb` inside the batch: the film insert's flush also writes
the pending showings; on `IntegrityError` (the film's id or tmdb_id already
taken in the transaction, or a pending-showing collision) the handler rolls
the whole transaction back — discarding the batch's pending and uncommitted
showings — and re-reads the film by id from the committed database, raising
when it is absent.  `(some none, _)` = no TMDb result (fall through to the
placeholder), `(none, _)` = the call raised. -/
def create_from_tmdb_sess (client : TMDbClient) (concurrent : List Showing)
    (s : Sess) (nt : String) : Option (Option Film) × Sess :=
  match client.search_film nt (findParenYear nt.data) with
  | none => (some none, s)
  | some tmdb_id =>
    match client.get_film_details tmdb_id with
    | none => (some none, s)
    | some details =>
      if filmInsertViolation s.txn (tmdbFilm nt tmdb_id details)
          || pendClash (s.txn.showings ++ concurrent) s.pend then
        match s.committed.films.find?
            (fun f => f.id == (tmdbFilm nt tmdb_id details).id) with
        | some existing => (some (some existing), ⟨s.committed, s.committed, [], false⟩)
        | none => (none, ⟨s.committed, s.committed, [], false⟩)
      else
        (some (some (tmdbFilm nt tmdb_id details)),
         { s with
           txn := { s.txn with
                    films := s.txn.films ++ [tmdbFilm nt tmdb_id details],
                    showings := s.txn.showings ++ s.pend },
           pend := [] })

/-- `_create_placeholder` inside the batch, with the same flush and recovery
behaviour as the TMDb creation (`tmdb_id` is `None`, so of the film's own
constraints only the primary key can be violated). -/
def create_placeholder_sess (concurrent : List Showing) (s : Sess)
    (nt : String) : Option Film × Sess :=
  let year := findParenYear nt.data
  let display_title := String.mk (stripTrailingPlainYear nt.data)
  let film_id := generate_film_id display_title year
  let film : Film :=
    ⟨film_id, display_title, year, none, none, none, none, none, none, none⟩
  if s.txn.films.any (fun f => f.id == film_id)
      || pendClash (s.txn.showings ++ concurrent) s.pend then
    let s1 : Sess := ⟨s.committed, s.committed, [], false⟩
    match s.committed.films.find? (fun f => f.id == film_id) with
    | some existing => (some existing, s1)
    | none => (none, s1)
  else
    (some film,
     { s with
       txn := { s.txn with
                films := s.txn.films ++ [film],
                showings := s.txn.showings ++ s.pend },
       pend := [] })

/-- `match_or_create_film` as it runs inside the scrape batch: the lookups
read the transaction view, the creation stages flush (writing the pending
showings too) and may roll the transaction back in their recovery path.  A
`failed` session raises on first use.  `none` = an exception escaped to the
per-showing handler. -/
def match_film_sess (ratio : String → String → ℚ) (client : TMDbClient)
    (concurrent : List Showing) (s : Sess) (raw_title : String) :
    Option Film × Sess :=
  if s.failed then (none, s) else
  let nt := normalise_title raw_title
  match check_alias s.txn nt with
  | .error _ => (none, s)
  | .ok (some film) => (some film, s)
  | .ok none =>
    match fuzzy_match ratio s.txn nt with
    | some film =>
      match store_alias_sess concurrent s nt film.id with
      | (some _, s1) => (some film, s1)
      | (none, s1) => (none, s1)
    | none =>
      match create_from_tmdb_sess client concurrent s nt with
      | (none, s1) => (none, s1)
      | (some (some film), s1) =>
        match store_alias_sess concurrent s1 nt film.id with
        | (some _, s2) => (some film, s2)
        | (none, s2) => (none, s2)
      | (some none, s1) =>
        match create_placeholder_sess concurrent s1 nt with
        | (none, s2) => (none, s2)
        | (some film, s2) =>
          match store_alias_sess concurrent s2 nt film.id with
          | (some _, s3) => (some film, s3)
          | (none, s3) => (none, s3)

/-- The field updates applied to an existing showing row. -/
def applyRawUpdate (r : RawShowing) (s : Showing) : Showing :=
  { s with booking_url := r.booking_url, screen_name := r.screen_name,
           format_tags := r.format_tags, price := r.price, raw_title := some r.title }

/-- The showing built for `db.add(showing)`. -/
def newShowing (cinema_id : String) (r : RawShowing) (film_id : String) : Showing :=
  ⟨cinema_id, film_id, r.start_time, r.booking_url, r.screen_name, r.format_tags,
   r.price, some r.title⟩

/-- The `for raw_showing in raw_showings` loop: resolve the film — any
exception, including those a failed session raises, is logged and the showing
skipped — then look for an existing row on the transaction view (the pending
adds are invisible to this `SELECT`), updating its fields or adding a new
pending showing.  The field update is applied to the transaction view
directly: no later statement of the batch reads the updated columns, they
violate no constraint, and a rollback discards the view wholesale, so a
pending update and a flushed one are indistinguishable here. -/
def processBatch (ratio : String → String → ℚ) (client : TMDbClient)
    (concurrent : List Showing) (cinema_id : String) :
    Sess → List RawShowing → Sess
  | s, [] => s
  | s, r :: rest =>
    match match_film_sess ratio client concurrent s r.title with
    | (none, s1) => processBatch ratio client concurrent cinema_id s1 rest
    | (some film, s1) =>
      match scalarOneOrNone (s1.txn.showings.filter (fun t =>
          t.cinema_id == cinema_id && t.film_id == film.id
            && t.start_time == r.start_time)) with
      | .error _ => processBatch ratio client concurrent cinema_id s1 rest
      | .ok (some existing) =>
        processBatch ratio client concurrent cinema_id
          { s1 with txn := { s1.txn with
              showings := updateRow existing (applyRawUpdate r existing)
                s1.txn.showings } } rest
      | .ok none =>
        processBatch ratio client concurrent cinema_id
          { s1 with pend := s1.pend ++ [newShowing cinema_id r film.id] } rest

/-- The per-cinema `db.commit()` with `except IntegrityError: db.rollback()`:
the commit flushes the remaining pending showings — a collision there (with
the transaction's rows or the concurrent writer's) raises and the rollback
restores the committed state — and a failed session's commit raises
`PendingRollbackError`, answered by the per-cinema handler's rollback.  The
concurrent writer's rows are part of the database either way. -/
def commitBatch (concurrent : List Showing) (s : Sess) : DBState :=
  if s.failed || pendClash (s.txn.showings ++ concurrent) s.pend then
    { s.committed with showings := s.committed.showings ++ concurrent }
  else
    { s.txn with showings := s.txn.showings ++ s.pend ++ concurrent }

/-- One cinema's slice of `run_scrape_all`: `fetched = none` models a scraper
failure or missing scraper (logged, isolated, next cinema). -/
structure CinemaScrape where
  cinema_id : String
  fetched : Option (List RawShowing)
  concurrent : List Showing

/-- One cinema's processing: the batch starts on a freshly committed session
(the source commits any pending film or alias creations right before the
showing loop). -/
def processCinema (ratio : String → String → ℚ) (client : TMDbClient)
    (db : DBState) (c : CinemaScrape) : DBState :=
  match c.fetched with
  | none => db
  | some raws =>
    commitBatch c.concurrent
      (processBatch ratio client c.concurrent c.cinema_id ⟨db, db, [], false⟩ raws)

/-- `run_scrape_all`, as the fold of the per-cinema processing over the
cinema list. -/
def run_scrape_all (ratio : String → String → ℚ) (client : TMDbClient)
    (db : DBState) (cs : List CinemaScrape) : DBState :=
  cs.foldl (processCinema ratio client) db

/-! ## Claim C3 — fuzzy matcher characterization

Spec side (§4.3): score every candidate's display title case-insensitively,
select the maximum, return the first candidate attaining it when the maximum
reaches the threshold; empty candidate set or a below-threshold maximum yield
nothing. -/

/-- The maximum of the candidates' scores (spec §4.3 "select the maximum"). -/
def maxScore (g : Film → ℚ) : List Film → Option ℚ
  | [] => none
  | x :: xs =>
    match maxScore g xs with
    | none => some (g x)
    | some m => some (max (g x) m)

/-- §4.3 contract of the fuzzy matcher, stated from the spec's words. -/
def specFuzzyMatch (ratio : String → String → ℚ) (db : DBState) (nt : String) :
    Option Film :=
  match maxScore (filmScore ratio nt) db.films with
  | none => none
  | some m =>
    if m < FUZZY_THRESHOLD then none
    else db.films.find? (fun f => filmScore ratio nt f == m)

theorem fuzzyBest_fst (g : Film → ℚ) (l : List Film) :
    ∀ (b : ℚ) (f : Option Film),
      (fuzzyBest g l b f).1 = l.foldl (fun a x => max a (g x)) b := by
  induction l with
  | nil => intro b f; rfl
  | cons x xs ih =>
    intro b f
    simp only [fuzzyBest, List.foldl_cons]
    by_cases h : b < g x
    · rw [if_pos h, ih, max_eq_right h.le]
    · rw [if_neg h, ih, max_eq_left (not_lt.mp h)]

theorem fuzzyBest_snd_all_le (g : Film → ℚ) (l : List Film) :
    ∀ (b : ℚ) (f : Option Film), (∀ x ∈ l, g x ≤ b) → (fuzzyBest g l b f).2 = f := by
  induction l with
  | nil => intro b f _; rfl
  | cons x xs ih =>
    intro b f h
    simp only [fuzzyBest]
    rw [if_neg (not_lt.mpr (h x (List.mem_cons_self x xs)))]
    exact ih b f (fun y hy => h y (List.mem_cons_of_mem x hy))

theorem foldl_max_all_le (g : Film → ℚ) (l : List Film) :
    ∀ (b : ℚ), (∀ x ∈ l, g x ≤ b) → l.foldl (fun a x => max a (g x)) b = b := by
  induction l with
  | nil => intro b _; rfl
  | cons x xs ih =>
    intro b h
    simp only [List.foldl_cons]
    rw [max_eq_left (h x (List.mem_cons_self x xs))]
    exact ih b (fun y hy => h y (List.mem_cons_of_mem x hy))

theorem foldl_max_ge_init (g : Film → ℚ) (l : List Film) :
    ∀ (b : ℚ), b ≤ l.foldl (fun a y => max a (g y)) b := by
  induction l with
  | nil => intro b; exact le_refl b
  | cons z xs ih =>
    intro b
    simp only [List.foldl_cons]
    exact le_trans (le_max_left _ _) (ih (max b (g z)))

theorem foldl_max_ge_mem (g : Film → ℚ) (l : List Film) :
    ∀ (b : ℚ) (x : Film), x ∈ l → g x ≤ l.foldl (fun a y => max a (g y)) b := by
  induction l with
  | nil => intro b x hx; cases hx
  | cons z xs ih =>
    intro b x hx
    simp only [List.foldl_cons]
    rcases List.mem_cons.mp hx with h | h
    · subst h
      exact le_trans (le_max_right _ _) (foldl_max_ge_init g xs (max b (g x)))
    · exact ih (max b (g z)) x h

theorem fuzzyBest_snd_exists (g : Film → ℚ) (l : List Film) :
    ∀ (b : ℚ) (f : Option Film), (∃ x ∈ l, b < g x) →
      (fuzzyBest g l b f).2 =
        l.find? (fun x => g x == l.foldl (fun a y => max a (g y)) b) := by
  induction l with
  | nil =>
    rintro b f ⟨x, hx, -⟩
    cases hx
  | cons x xs ih =>
    intro b f h
    simp only [fuzzyBest, List.foldl_cons]
    by_cases hx : b < g x
    · rw [if_pos hx, max_eq_right hx.le]
      by_cases hxs : ∃ y ∈ xs, g x < g y
      · rw [ih (g x) (some x) hxs]
        have hlt : g x < xs.foldl (fun a y => max a (g y)) (g x) := by
          obtain ⟨y, hy, hgy⟩ := hxs
          exact lt_of_lt_of_le hgy (foldl_max_ge_mem g xs (g x) y hy)
        rw [List.find?_cons_of_neg]
        simp only [beq_iff_eq]
        exact ne_of_lt hlt
      · push_neg at hxs
        rw [fuzzyBest_snd_all_le g xs (g x) (some x) hxs,
            foldl_max_all_le g xs (g x) hxs]
        rw [List.find?_cons_of_pos]
        simp only [beq_iff_eq]
    · rw [if_neg hx, max_eq_left (not_lt.mp hx)]
      obtain ⟨y, hy, hby⟩ := h
      have hy2 : y ∈ xs := by
        rcases List.mem_cons.mp hy with h2 | h2
        · exact absurd (h2 ▸ hby) hx
        · exact h2
      rw [ih b f ⟨y, hy2, hby⟩]
      rw [List.find?_cons_of_neg]
      simp only [beq_iff_eq]
      have hbm : b < xs.foldl (fun a z => max a (g z)) b :=
        lt_of_lt_of_le hby (foldl_max_ge_mem g xs b y hy2)
      exact ne_of_lt (lt_of_le_of_lt (not_lt.mp hx) hbm)

theorem maxScore_eq_none (g : Film → ℚ) (l : List Film) :
    maxScore g l = none ↔ l = [] := by
  cases l with
  | nil => simp [maxScore]
  | cons x xs =>
    simp only [maxScore]
    cases maxScore g xs <;> simp

theorem maxScore_foldl (g : Film → ℚ) (l : List Film) :
    ∀ (b m : ℚ), maxScore g l = some m →
      l.foldl (fun a x => max a (g x)) b = max b m := by
  induction l with
  | nil => intro b m h; cases h
  | cons x xs ih =>
    intro b m h
    simp only [maxScore] at h
    simp only [List.foldl_cons]
    cases hxs : maxScore g xs with
    | none =>
      rw [hxs] at h
      have hx : m = g x := by cases h; rfl
      have : xs = [] := (maxScore_eq_none g xs).mp hxs
      subst this
      simp [hx]
    | some m2 =>
      rw [hxs] at h
      have hm : m = max (g x) m2 := by cases h; rfl
      rw [ih (max b (g x)) m2 hxs, hm, max_assoc]

theorem maxScore_mem (g : Film → ℚ) (l : List Film) :
    ∀ (m : ℚ), maxScore g l = some m → ∃ x ∈ l, g x = m := by
  induction l with
  | nil => intro m h; cases h
  | cons x xs ih =>
    intro m h
    simp only [maxScore] at h
    cases hxs : maxScore g xs with
    | none =>
      rw [hxs] at h
      exact ⟨x, List.mem_cons_self x xs, by cases h; rfl⟩
    | some m2 =>
      rw [hxs] at h
      have hm : m = max (g x) m2 := by cases h; rfl
      rcases max_choice (g x) m2 with hc | hc
      · exact ⟨x, List.mem_cons_self x xs, by rw [hm, hc]⟩
      · obtain ⟨y, hy, hgy⟩ := ih m2 hxs
        exact ⟨y, List.mem_cons_of_mem x hy, by rw [hm, hc, hgy]⟩

/-- A candidate film used by the threshold-boundary part of C3. -/
def boundaryFilm : Film :=
  ⟨"film-x", "Film X", none, none, none, none, none, none, none, none⟩

/-- **C3.**  For every normalized title and candidate list, `_fuzzy_match`
returns nothing when the list is empty or the maximum case-insensitive score
is below the threshold 85, and otherwise the first candidate (in iteration
order) attaining the maximum; in particular a candidate scoring exactly 85
matches and one scoring 84 does not. -/
theorem fuzzy_match_characterization :
    (∀ (ratio : String → String → ℚ) (db : DBState) (nt : String),
        fuzzy_match ratio db nt = specFuzzyMatch ratio db nt)
    ∧ fuzzy_match (fun _ _ => 85) ⟨[boundaryFilm], [], []⟩ "x" = some boundaryFilm
    ∧ fuzzy_match (fun _ _ => 84) ⟨[boundaryFilm], [], []⟩ "x" = none := by
  refine ⟨?_, by decide, by decide⟩
  intro ratio db nt
  unfold fuzzy_match specFuzzyMatch
  cases hl : db.films with
  | nil => simp [maxScore]
  | cons x xs =>
    set g := filmScore ratio nt with hg
    obtain ⟨m, hm⟩ : ∃ m, maxScore g (x :: xs) = some m := by
      cases h : maxScore g xs with
      | none => exact ⟨g x, by simp [maxScore, h]⟩
      | some m2 => exact ⟨max (g x) m2, by simp [maxScore, h]⟩
    rw [hm]
    simp only [List.isEmpty_cons, Bool.false_eq_true, if_false]
    have h1 : (fuzzyBest g (x :: xs) 0 none).1 = max 0 m := by
      rw [fuzzyBest_fst]
      exact maxScore_foldl g (x :: xs) 0 m hm
    by_cases hth : m < FUZZY_THRESHOLD
    · rw [if_pos hth]
      have hlt : (fuzzyBest g (x :: xs) 0 none).1 < FUZZY_THRESHOLD := by
        rw [h1]
        exact max_lt (by norm_num [FUZZY_THRESHOLD]) hth
      rw [if_neg (not_le.mpr hlt)]
    · rw [if_neg hth]
      have h85 : FUZZY_THRESHOLD ≤ m := not_lt.mp hth
      have hm0 : (0 : ℚ) < m :=
        lt_of_lt_of_le (by norm_num [FUZZY_THRESHOLD]) h85
      have h1m : (fuzzyBest g (x :: xs) 0 none).1 = m := by
        rw [h1, max_eq_right hm0.le]
      obtain ⟨y, hy, hgy⟩ := maxScore_mem g (x :: xs) m hm
      have h2 := fuzzyBest_snd_exists g (x :: xs) 0 none ⟨y, hy, by rw [hgy]; exact hm0⟩
      have hfold : (x :: xs).foldl (fun a z => max a (g z)) 0 = m := by
        rw [maxScore_foldl g (x :: xs) 0 m hm, max_eq_right hm0.le]
      rw [hfold] at h2
      rw [if_pos (h1m ▸ h85), h2]

/-! ## Claim C7 — dash-qualifier stripping -/

/-- Presence of the `\s+[-–—]\s+\S` pattern anywhere in the list. -/
def hasDashQualifier : List Char → Bool
  | [] => false
  | c :: rest => dashMatchAt (c :: rest) || hasDashQualifier rest

theorem dropWhile_head_false {α : Type} (p : α → Bool) :
    ∀ (l : List α) (c : α) (t : List α), l.dropWhile p = c :: t → p c = false := by
  intro l
  induction l with
  | nil => intro c t h; cases h
  | cons x xs ih =>
    intro c t h
    by_cases hx : p x
    · rw [List.dropWhile_cons_of_pos hx] at h
      exact ih c t h
    · rw [List.dropWhile_cons_of_neg hx] at h
      cases h
      exact Bool.of_not_eq_true hx

theorem all_takeWhile {α : Type} (p : α → Bool) :
    ∀ (l : List α), (l.takeWhile p).all p = true := by
  intro l
  induction l with
  | nil => rfl
  | cons x xs ih =>
    by_cases hx : p x
    · rw [List.takeWhile_cons_of_pos hx, List.all_cons, hx, ih]
      rfl
    · rw [List.takeWhile_cons_of_neg hx]
      rfl

/-- **C7.**  `normalise_title`'s dash step strips a whitespace-flanked dash
together with everything after it (leftmost such dash), never touches a string
without such a dash — in particular a hyphen with no surrounding whitespace —
and `normalise_title "Spider-Man (2002)" = "Spider-Man"`. -/
theorem normalise_title_dash_qualifier :
    (∀ l : List Char, hasDashQualifier l = false → dashSub l = l)
    ∧ (∀ l : List Char, hasDashQualifier l = true →
        ∃ pre ws1 d ws2 c tail,
          l = pre ++ ws1 ++ d :: (ws2 ++ c :: tail) ∧
          ws1 ≠ [] ∧ ws1.all pyIsSpace = true ∧ isDashChar d = true ∧
          ws2 ≠ [] ∧ ws2.all pyIsSpace = true ∧ pyIsSpace c = false ∧
          dashSub l = pre)
    ∧ normalise_title "Spider-Man (2002)" = "Spider-Man" := by
  refine ⟨?_, ?_, by decide⟩
  · intro l
    induction l with
    | nil => intro _; rfl
    | cons x xs ih =>
      intro h
      simp only [hasDashQualifier, Bool.or_eq_false_iff] at h
      simp [dashSub, h.1, ih h.2]
  · intro l
    induction l with
    | nil => intro h; cases h
    | cons x xs ih =>
      intro h
      by_cases hm : dashMatchAt (x :: xs)
      · -- the match starts here: decompose from `dashMatchAt`
        have hmm := hm
        unfold dashMatchAt at hmm
        simp only [Bool.and_eq_true] at hmm
        obtain ⟨hws, hrest⟩ := hmm
        set L := x :: xs with hL
        cases hr : L.dropWhile pyIsSpace with
        | nil => rw [hr] at hrest; cases hrest
        | cons d after =>
          rw [hr] at hrest
          simp only [Bool.and_eq_true] at hrest
          obtain ⟨hd, htail⟩ := hrest
          unfold dashTailOk at htail
          cases hafter : after with
          | nil => rw [hafter] at htail; cases htail
          | cons a as =>
            rw [hafter] at htail
            simp only [Bool.and_eq_true] at htail
            obtain ⟨ha, hne⟩ := htail
            cases hdrop : (a :: as).dropWhile pyIsSpace with
            | nil =>
              rw [hdrop] at hne
              simp at hne
            | cons c tail =>
              refine ⟨[], L.takeWhile pyIsSpace, d,
                      (a :: as).takeWhile pyIsSpace, c, tail, ?_, ?_, ?_, hd, ?_, ?_, ?_, ?_⟩
              · rw [List.nil_append, ← hdrop, ← hafter,
                    List.takeWhile_append_dropWhile, ← hr,
                    List.takeWhile_append_dropWhile]
              · intro hcon
                rw [hcon] at hws
                simp at hws
              · exact all_takeWhile pyIsSpace L
              · intro hcon
                rw [List.takeWhile_cons_of_pos ha] at hcon
                cases hcon
              · exact all_takeWhile pyIsSpace (a :: as)
              · exact dropWhile_head_false pyIsSpace (a :: as) c tail hdrop
              · simp only [dashSub, hm, if_true]
      · have h2 : hasDashQualifier xs = true := by
          simp only [hasDashQualifier] at h
          rw [Bool.not_eq_true] at hm
          rw [hm, Bool.false_or] at h
          exact h
        obtain ⟨pre, ws1, d, ws2, c, tail, heq, h1, h2', h3, h4, h5, h6, h7⟩ := ih h2
        refine ⟨x :: pre, ws1, d, ws2, c, tail, ?_, h1, h2', h3, h4, h5, h6, ?_⟩
        · rw [List.cons_append, List.cons_append, heq]
        · simp [dashSub, hm, h7]

/-- Witness for C7: the no-dash-qualifier direction evaluated on the
hyphenated title. -/
theorem normalise_title_dash_qualifier_witness :
    dashSub "Spider-Man".data = "Spider-Man".data :=
  normalise_title_dash_qualifier.1 "Spider-Man".data (by decide)

/-! ## Claim C8 — double-bill splitting -/

/-- The amended contract of `split_double_bill`: two normalized titles exactly
when the `"<A> (<year>) and <B>"` pattern matches *and* both normalized parts
are at least two characters long; otherwise the normalized whole title. -/
def specSplitDoubleBill (title : String) : List String :=
  match deMatch (pyStrip title.data) with
  | some (A, B) =>
    let pa := normalise_title (String.mk (pyStrip A))
    let pb := normalise_title (String.mk (pyStrip B))
    if 2 ≤ pa.length ∧ 2 ≤ pb.length then [pa, pb] else [normalise_title title]
  | none => [normalise_title title]

/-- **C8 (amended).**  `split_double_bill` returns two titles exactly when the
double-bill pattern matches and both normalized parts have length ≥ 2, else
one; with the claim's two concrete examples. -/
theorem split_double_bill_characterization :
    (∀ t : String, split_double_bill t = specSplitDoubleBill t)
    ∧ split_double_bill "The Devil-Doll (1936) and Witchcraft (1964)" =
        ["The Devil-Doll", "Witchcraft"]
    ∧ split_double_bill "Crime and Punishment" = ["Crime and Punishment"] := by
  refine ⟨?_, by decide, by decide⟩
  intro t
  unfold split_double_bill specSplitDoubleBill
  cases hd : deMatch (pyStrip t.data) with
  | none => rfl
  | some AB =>
    obtain ⟨A, B⟩ := AB
    simp only
    set pa := normalise_title (String.mk (pyStrip A)) with hpa
    set pb := normalise_title (String.mk (pyStrip B)) with hpb
    rw [List.filter_cons, List.filter_cons, List.filter_nil]
    by_cases h1 : 2 ≤ pa.length
    · have e1 : (pa.length != 0 && decide (2 ≤ pa.length)) = true := by
        rw [decide_eq_true h1, Bool.and_true, bne_iff_ne]
        omega
      by_cases h2 : 2 ≤ pb.length
      · have e2 : (pb.length != 0 && decide (2 ≤ pb.length)) = true := by
          rw [decide_eq_true h2, Bool.and_true, bne_iff_ne]
          omega
        simp only [e1, e2]
        simp [h1, h2]
      · have e2 : (pb.length != 0 && decide (2 ≤ pb.length)) = false := by
          rw [decide_eq_false h2, Bool.and_false]
        simp only [e1, e2]
        simp [h1, h2]
    · have e1 : (pa.length != 0 && decide (2 ≤ pa.length)) = false := by
        rw [decide_eq_false h1, Bool.and_false]
      by_cases h2 : 2 ≤ pb.length
      · have e2 : (pb.length != 0 && decide (2 ≤ pb.length)) = true := by
          rw [decide_eq_true h2, Bool.and_true, bne_iff_ne]
          omega
        simp only [e1, e2]
        simp [h1, h2]
      · have e2 : (pb.length != 0 && decide (2 ≤ pb.length)) = false := by
          rw [decide_eq_false h2, Bool.and_false]
        simp only [e1, e2]
        simp [h1, h2]

/-- **C8, counterexample to the original claim.**  `"Hero (1936) and I"`
matches the double-bill pattern (the year immediately precedes `and`), yet
`split_double_bill` returns a one-element list, because the second normalized
part is shorter than two characters. -/
theorem split_double_bill_pattern_not_sufficient :
    (deMatch (pyStrip "Hero (1936) and I".data)).isSome = true ∧
    split_double_bill "Hero (1936) and I" = ["Hero (1936) and I"] :=
  ⟨by decide, by decide⟩

/-! ## Claim C4 — uniqueness-violation recovery on film creation -/

/-- The film id `_create_from_tmdb` generates for details `d` resolved from
normalized title `nt`. -/
def tmdbFilmId (d : TmdbDetails) (nt : String) : String :=
  generate_film_id (d.title.getD nt) (extract_year d.release_date)

/-- The film id `_create_placeholder` generates for normalized title `nt`. -/
def placeholderFilmId (nt : String) : String :=
  generate_film_id (String.mk (stripTrailingPlainYear nt.data)) (findParenYear nt.data)

/-- `List.find?` returns a member satisfying the predicate. -/
theorem find?_spec {α : Type} (p : α → Bool) :
    ∀ (l : List α) (a : α), l.find? p = some a → p a = true ∧ a ∈ l := by
  intro l
  induction l with
  | nil => intro a h; cases h
  | cons x xs ih =>
    intro a h
    by_cases hx : p x
    · rw [List.find?_cons_of_pos _ hx] at h
      cases h
      exact ⟨hx, List.mem_cons_self x xs⟩
    · rw [List.find?_cons_of_neg _ hx] at h
      obtain ⟨h1, h2⟩ := ih a h
      exact ⟨h1, List.mem_cons_of_mem x h2⟩

/-- **C4.**  When a create stage hits a uniqueness violation and a film row
with the generated id already exists, both `_create_from_tmdb` and
`_create_placeholder` recover by re-reading and returning that row, leaving
the store unchanged and raising nothing. -/
theorem creation_uniqueness_recovery :
    (∀ (client : TMDbClient) (db : DBState) (nt : String) (tid : Nat)
        (d : TmdbDetails) (f0 : Film),
        client.search_film nt (findParenYear nt.data) = some tid →
        client.get_film_details tid = some d →
        db.films.find? (fun f => f.id == tmdbFilmId d nt) = some f0 →
        create_from_tmdb client db nt = .ok (some f0, db))
    ∧ (∀ (db : DBState) (nt : String) (f0 : Film),
        db.films.find? (fun f => f.id == placeholderFilmId nt) = some f0 →
        create_placeholder db nt = .ok (f0, db)) := by
  constructor
  · intro client db nt tid d f0 hs hd hfind
    simp only [tmdbFilmId] at hfind
    have hany : db.films.any
        (fun f => f.id == generate_film_id (d.title.getD nt) (extract_year d.release_date))
        = true :=
      List.any_eq_true.mpr ⟨f0, (find?_spec _ _ _ hfind).2, (find?_spec _ _ _ hfind).1⟩
    simp only [create_from_tmdb, hs, hd]
    rw [if_pos (by simp [filmInsertViolation, hany]), hfind]
  · intro db nt f0 hfind
    simp only [placeholderFilmId] at hfind
    have hany : db.films.any
        (fun f => f.id == generate_film_id (String.mk (stripTrailingPlainYear nt.data))
          (findParenYear nt.data)) = true :=
      List.any_eq_true.mpr ⟨f0, (find?_spec _ _ _ hfind).2, (find?_spec _ _ _ hfind).1⟩
    simp only [create_placeholder]
    rw [if_pos hany, hfind]

/-- Concrete TMDb payload used by witnesses: details whose title slugifies to
`boundaryFilm`'s id. -/
def sampleDetails : TmdbDetails :=
  ⟨some "Film X", none, none, none, none, [], [], []⟩

/-- Concrete TMDb client used by witnesses. -/
def sampleClient : TMDbClient :=
  ⟨fun _ _ => some 7, fun _ => some sampleDetails⟩

/-- Witness for C4: both create stages recover an existing `"film-x"` row. -/
theorem creation_uniqueness_recovery_witness :
    create_from_tmdb sampleClient ⟨[boundaryFilm], [], []⟩ "Film X" =
      .ok (some boundaryFilm, ⟨[boundaryFilm], [], []⟩)
    ∧ create_placeholder ⟨[boundaryFilm], [], []⟩ "Film X" =
      .ok (boundaryFilm, ⟨[boundaryFilm], [], []⟩) :=
  ⟨creation_uniqueness_recovery.1 sampleClient ⟨[boundaryFilm], [], []⟩ "Film X" 7
      sampleDetails boundaryFilm rfl rfl (by decide),
   creation_uniqueness_recovery.2 ⟨[boundaryFilm], [], []⟩ "Film X" boundaryFilm (by decide)⟩

/-! ## Claim C10 — deterministic film ids and convergence of colliding slugs -/

theorem mem_collapseRuns (cls : Char → Bool) (rep : Char) :
    ∀ (flag : Bool) (l : List Char) (c : Char),
      c ∈ collapseRuns cls rep flag l → c = rep ∨ c ∈ l := by
  intro flag l
  induction l generalizing flag with
  | nil => intro c h; cases h
  | cons x xs ih =>
    intro c h
    simp only [collapseRuns] at h
    by_cases hx : cls x
    · rw [if_pos hx] at h
      by_cases hf : flag
      · rw [if_pos hf] at h
        rcases ih true c h with h2 | h2
        · exact Or.inl h2
        · exact Or.inr (List.mem_cons_of_mem x h2)
      · rw [if_neg hf] at h
        rcases List.mem_cons.mp h with h2 | h2
        · exact Or.inl h2
        · rcases ih true c h2 with h3 | h3
          · exact Or.inl h3
          · exact Or.inr (List.mem_cons_of_mem x h3)
    · rw [if_neg hx] at h
      rcases List.mem_cons.mp h with h2 | h2
      · exact Or.inr (h2 ▸ List.mem_cons_self x xs)
      · rcases ih false c h2 with h3 | h3
        · exact Or.inl h3
        · exact Or.inr (List.mem_cons_of_mem x h3)

theorem find?_append_right {α : Type} (p : α → Bool) :
    ∀ (l1 l2 : List α), l1.find? p = none → (l1 ++ l2).find? p = l2.find? p := by
  intro l1
  induction l1 with
  | nil => intro l2 _; rfl
  | cons x xs ih =>
    intro l2 h
    by_cases hx : p x
    · rw [List.find?_cons_of_pos _ hx] at h
      cases h
    · rw [List.find?_cons_of_neg _ hx] at h
      rw [List.cons_append, List.find?_cons_of_neg _ hx]
      exact ih l2 h

/-- **C10.**  Film id generation is `slugify` (plus `-year`): equal slugs give
equal ids, every id character is a lowercase letter, digit or hyphen, and a
placeholder creation whose generated id collides with an earlier creation
returns the earlier row instead of adding a second film; e.g.
`"Mission: Impossible"` and `"mission impossible"` slugify identically. -/
theorem film_id_generation :
    (∀ (t1 t2 : String) (y : Option Nat), slugify t1 = slugify t2 →
        generate_film_id t1 y = generate_film_id t2 y)
    ∧ (∀ (t : String) (c : Char), c ∈ (slugify t).data →
        ('a' ≤ c ∧ c ≤ 'z') ∨ ('0' ≤ c ∧ c ≤ '9') ∨ c = '-')
    ∧ (∀ (db : DBState) (nt1 nt2 : String) (f1 : Film) (db1 : DBState),
        placeholderFilmId nt1 = placeholderFilmId nt2 →
        db.films.find? (fun f => f.id == placeholderFilmId nt1) = none →
        create_placeholder db nt1 = .ok (f1, db1) →
        create_placeholder db1 nt2 = .ok (f1, db1))
    ∧ slugify "Mission: Impossible" = slugify "mission impossible" := by
  refine ⟨?_, ?_, ?_, by decide⟩
  · intro t1 t2 y h
    simp only [generate_film_id, h]
  · intro t c h
    simp only [slugify] at h
    have h2 : c ∈ collapseRuns (fun c => c = '-') '-' false
        (List.filter isSlugKeep (collapseRuns (fun c => pyIsSpace c || c = '_') '-' false
          (t.data.map Char.toLower))) := by
      have ha := (List.mem_reverse).mp h
      have hb := (List.dropWhile_sublist _).subset ha
      have hc2 := (List.mem_reverse).mp hb
      exact (List.dropWhile_sublist _).subset hc2
    rcases mem_collapseRuns _ '-' false _ c h2 with h3 | h3
    · exact Or.inr (Or.inr h3)
    · have hk := (List.mem_filter.mp h3).2
      simp only [isSlugKeep, Bool.or_eq_true, Bool.and_eq_true,
        decide_eq_true_eq] at hk
      rcases hk with (hk | hk) | hk
      · exact Or.inl hk
      · exact Or.inr (Or.inl hk)
      · exact Or.inr (Or.inr hk)
  · intro db nt1 nt2 f1 db1 hid hnone hc
    simp only [placeholderFilmId] at hid hnone
    have hnoany : db.films.any (fun f => f.id ==
        generate_film_id (String.mk (stripTrailingPlainYear nt1.data))
          (findParenYear nt1.data)) = false := by
      rw [Bool.eq_false_iff]
      intro hany
      obtain ⟨f, hf, hpf⟩ := List.any_eq_true.mp hany
      exact (List.find?_eq_none.mp hnone f hf) hpf
    simp only [create_placeholder] at hc ⊢
    rw [if_neg (by rw [hnoany]; exact Bool.false_ne_true)] at hc
    simp only [Except.ok.injEq, Prod.mk.injEq] at hc
    obtain ⟨hf1, hdb1⟩ := hc
    rw [← hid]
    have hany1 : ((db1.films).any (fun f => f.id ==
        generate_film_id (String.mk (stripTrailingPlainYear nt1.data))
          (findParenYear nt1.data))) = true := by
      rw [← hdb1]
      simp only [List.any_append, List.any_cons, List.any_nil, Bool.or_false]
      simp
    rw [if_pos hany1]
    have hfind1 : (db1.films).find? (fun f => f.id ==
        generate_film_id (String.mk (stripTrailingPlainYear nt1.data))
          (findParenYear nt1.data)) = some f1 := by
      rw [← hdb1]
      rw [find?_append_right _ _ _ hnone]
      rw [List.find?_cons_of_pos _ (by simp)]
      rw [hf1]
    rw [hfind1]

def missionFilm : Film :=
  ⟨"mission-impossible", "Mission: Impossible", none, none, none, none, none, none, none, none⟩

def missionDB : DBState := ⟨[missionFilm], [], []⟩

/-- Witness for C10: two differently-punctuated titles with the same slug
converge on the earlier placeholder row. -/
theorem film_id_generation_witness :
    create_placeholder missionDB "mission impossible" = .ok (missionFilm, missionDB) :=
  film_id_generation.2.2.1 ⟨[], [], []⟩ "Mission: Impossible" "mission impossible"
    missionFilm missionDB (by decide) rfl rfl

/-! ## Claim C9 — empty normalized titles resolve to one shared placeholder -/

/-- **C9.**  A raw title that normalizes to the empty string, with no alias
row for `""`, no fuzzy hit and no TMDb hit, resolves without error to a film
whose id is the empty string (created, or re-read when it already exists), so
all degenerate titles share one film row. -/
theorem empty_title_resolution (ratio : String → String → ℚ) (client : TMDbClient)
    (db : DBState) (raw : String)
    (hn : normalise_title raw = "")
    (halias : db.aliases.filter (fun a => a.normalized_title == "") = [])
    (hfuzz : fuzzy_match ratio db "" = none)
    (hsearch : client.search_film "" none = none) :
    ∃ f db1, match_or_create_film ratio client db raw = .ok (f, db1) ∧ f.id = "" := by
  have hca : check_alias db "" = .ok none := by
    rw [check_alias, aliasJoin, halias]
    rfl
  have hid : generate_film_id (String.mk (stripTrailingPlainYear ([] : List Char))) none
      = "" := by decide
  have hyr : findParenYear ([] : List Char) = none := by decide
  simp only [match_or_create_film, hn, hca, hfuzz, bind, Except.bind]
  simp only [create_from_tmdb, String.data, hyr, hsearch]
  simp only [create_placeholder, String.data, hyr, hid]
  by_cases hex : db.films.any (fun f => f.id == "") = true
  · rw [if_pos hex]
    obtain ⟨e, he⟩ : ∃ e, db.films.find? (fun f => f.id == "") = some e := by
      obtain ⟨x, hx, hpx⟩ := List.any_eq_true.mp hex
      cases hf : db.films.find? (fun f => f.id == "") with
      | none => exact absurd hpx (List.find?_eq_none.mp hf x hx)
      | some e => exact ⟨e, rfl⟩
    rw [he]
    have heid : e.id = "" := by
      have := (find?_spec _ _ _ he).1
      simpa using this
    simp only [store_alias, halias, scalarOneOrNone, bind, Except.bind, heid]
    rw [if_pos (List.any_eq_true.mpr ⟨e, (find?_spec _ _ _ he).2, by simp [heid]⟩)]
    exact ⟨e, _, rfl, heid⟩
  · rw [if_neg hex]
    simp only [store_alias, halias, scalarOneOrNone, bind, Except.bind]
    rw [if_pos (by simp [List.any_append])]
    exact ⟨_, _, rfl, rfl⟩

def ratioZero : String → String → ℚ := fun _ _ => 0

def nullClient : TMDbClient := ⟨fun _ _ => none, fun _ => none⟩

def emptyDB : DBState := ⟨[], [], []⟩

/-- Witness for C9: a whitespace-only title on an empty store. -/
theorem empty_title_resolution_witness :
    ∃ f db1, match_or_create_film ratioZero nullClient emptyDB "   " = .ok (f, db1)
      ∧ f.id = "" :=
  empty_title_resolution ratioZero nullClient emptyDB "   " (by decide) rfl rfl rfl

/-! ## Claim C1 — stage sequence of `match_or_create_film` -/

theorem scalarOneOrNone_ok_none {α : Type} (l : List α) :
    scalarOneOrNone l = .ok none → l = [] := by
  intro h
  cases l with
  | nil => rfl
  | cons x xs =>
    cases xs with
    | nil => cases h
    | cons y ys => cases h

theorem fuzzyBest_snd_mem (g : Film → ℚ) :
    ∀ (l : List Film) (b : ℚ) (f0 : Option Film) (f : Film),
      (fuzzyBest g l b f0).2 = some f → f ∈ l ∨ f0 = some f := by
  intro l
  induction l with
  | nil => intro b f0 f h; exact Or.inr h
  | cons x xs ih =>
    intro b f0 f h
    simp only [fuzzyBest] at h
    by_cases hx : b < g x
    · rw [if_pos hx] at h
      rcases ih (g x) (some x) f h with h2 | h2
      · exact Or.inl (List.mem_cons_of_mem x h2)
      · cases h2
        exact Or.inl (List.mem_cons_self x xs)
    · rw [if_neg hx] at h
      rcases ih b f0 f h with h2 | h2
      · exact Or.inl (List.mem_cons_of_mem x h2)
      · exact Or.inr h2

theorem fuzzy_match_mem (ratio : String → String → ℚ) (db : DBState) (nt : String)
    (f : Film) (h : fuzzy_match ratio db nt = some f) : f ∈ db.films := by
  unfold fuzzy_match at h
  by_cases he : db.films.isEmpty
  · rw [if_pos he] at h
    cases h
  · rw [if_neg he] at h
    by_cases ht : FUZZY_THRESHOLD ≤ (fuzzyBest (filmScore ratio nt) db.films 0 none).1
    · rw [if_pos ht] at h
      rcases fuzzyBest_snd_mem (filmScore ratio nt) db.films 0 none f h with h2 | h2
      · exact h2
      · cases h2
    · rw [if_neg ht] at h
      cases h

/-- Inversion of `_create_from_tmdb` on success: aliases and showings are
untouched, a `none` result leaves the store unchanged, and a returned film is
in the final store (existing, or appended). -/
theorem create_from_tmdb_ok (client : TMDbClient) (db : DBState) (nt : String)
    (r : Option Film × DBState) (h : create_from_tmdb client db nt = .ok r) :
    (r.2.aliases = db.aliases ∧ r.2.showings = db.showings) ∧
    (r.1 = none → r.2 = db) ∧
    (∀ f, r.1 = some f → f ∈ r.2.films ∧
      (r.2 = db ∨ (r.2 = { db with films := db.films ++ [f] } ∧
        db.films.any (fun g => g.id == f.id) = false))) := by
  cases hs : client.search_film nt (findParenYear nt.data) with
  | none =>
    simp only [create_from_tmdb, hs] at h
    cases h
    refine ⟨⟨rfl, rfl⟩, fun _ => rfl, ?_⟩
    intro f hf
    cases hf
  | some tid =>
    cases hd : client.get_film_details tid with
    | none =>
      simp only [create_from_tmdb, hs, hd] at h
      cases h
      refine ⟨⟨rfl, rfl⟩, fun _ => rfl, ?_⟩
      intro f hf
      cases hf
    | some d =>
      simp only [create_from_tmdb, hs, hd] at h
      by_cases hv : filmInsertViolation db
          ⟨generate_film_id (d.title.getD nt) (extract_year d.release_date),
           d.title.getD nt, extract_year d.release_date, some tid,
           if d.directors.isEmpty then none else some d.directors,
           if d.countries.isEmpty then none else some d.countries,
           if d.cast.isEmpty then none else some d.cast,
           d.overview, d.poster_path, d.runtime⟩ = true
      · rw [if_pos hv] at h
        cases hf : db.films.find? (fun f => f.id ==
            generate_film_id (d.title.getD nt) (extract_year d.release_date)) with
        | none =>
          rw [hf] at h
          cases h
        | some e =>
          rw [hf] at h
          cases h
          refine ⟨⟨rfl, rfl⟩, ?_, ?_⟩
          · intro hc
            cases hc
          · intro f hf2
            cases hf2
            exact ⟨(find?_spec _ _ _ hf).2, Or.inl rfl⟩
      · rw [if_neg hv] at h
        cases h
        refine ⟨⟨rfl, rfl⟩, ?_, ?_⟩
        · intro hc
          cases hc
        · intro f hf2
          cases hf2
          refine ⟨List.mem_append_right _ (List.mem_cons_self _ _), Or.inr ⟨rfl, ?_⟩⟩
          have hv2 := Bool.of_not_eq_true hv
          simp only [filmInsertViolation, Bool.or_eq_false_iff] at hv2
          exact hv2.1

/-- Inversion of `_create_placeholder` on success. -/
theorem create_placeholder_ok (db : DBState) (nt : String)
    (r : Film × DBState) (h : create_placeholder db nt = .ok r) :
    (r.2.aliases = db.aliases ∧ r.2.showings = db.showings) ∧
    r.1 ∈ r.2.films ∧ (r.2 = db ∨ (r.2 = { db with films := db.films ++ [r.1] } ∧
      db.films.any (fun g => g.id == r.1.id) = false)) := by
  simp only [create_placeholder] at h
  by_cases hv : db.films.any (fun f => f.id ==
      generate_film_id (String.mk (stripTrailingPlainYear nt.data))
        (findParenYear nt.data)) = true
  · rw [if_pos hv] at h
    cases hf : db.films.find? (fun f => f.id ==
        generate_film_id (String.mk (stripTrailingPlainYear nt.data))
          (findParenYear nt.data)) with
    | none =>
      rw [hf] at h
      cases h
    | some e =>
      rw [hf] at h
      cases h
      exact ⟨⟨rfl, rfl⟩, (find?_spec _ _ _ hf).2, Or.inl rfl⟩
  · rw [if_neg hv] at h
    cases h
    exact ⟨⟨rfl, rfl⟩, List.mem_append_right _ (List.mem_cons_self _ _),
      Or.inr ⟨rfl, Bool.of_not_eq_true hv⟩⟩

/-- `_store_alias` inserts when no alias row for the title exists and the film
row is present. -/
theorem store_alias_inserts (db : DBState) (nt : String) (fid : String)
    (hno : db.aliases.filter (fun a => a.normalized_title == nt) = [])
    (hfk : db.films.any (fun f => f.id == fid) = true) :
    store_alias db nt fid = .ok { db with aliases := db.aliases ++ [⟨nt, fid⟩] } := by
  simp only [store_alias, hno, scalarOneOrNone, bind, Except.bind]
  rw [if_pos hfk]

/-- With the alias → film foreign key intact, an alias-stage miss means no
alias row for that title exists at all. -/
theorem no_alias_of_check_none (db : DBState) (nt : String)
    (hfk : aliasFilmExists db = true) (h : check_alias db nt = .ok none) :
    db.aliases.filter (fun a => a.normalized_title == nt) = [] := by
  have hj : aliasJoin db nt = [] := scalarOneOrNone_ok_none _ h
  unfold aliasJoin at hj
  cases hfil : db.aliases.filter (fun a => a.normalized_title == nt) with
  | nil => rfl
  | cons a rest =>
    exfalso
    rw [hfil] at hj
    have ha : a ∈ db.aliases :=
      List.mem_of_mem_filter (hfil ▸ List.mem_cons_self a rest)
    obtain ⟨f, hfmem, hfid⟩ :=
      List.any_eq_true.mp ((List.all_eq_true.mp hfk) a ha)
    have hfin : f ∈ db.films.filter (fun f => f.id == a.film_id) :=
      List.mem_filter.mpr ⟨hfmem, hfid⟩
    have : f ∈ ([] : List Film) := by
      rw [← hj]
      exact List.mem_flatMap.mpr ⟨a, List.mem_cons_self a rest, hfin⟩
    cases this

/-- **C1.**  `match_or_create_film` runs normalize → alias lookup → fuzzy →
TMDb → placeholder, short-circuiting at the first stage that yields a film;
an alias-stage hit returns that film with the store untouched (no new
TitleAlias), while a fuzzy, TMDb or placeholder success appends the TitleAlias
`(normalized title ↦ returned film's id)` before returning. -/
theorem match_or_create_film_stages (ratio : String → String → ℚ)
    (client : TMDbClient) (db : DBState) (raw : String)
    (hfk : aliasFilmExists db = true) :
    (∀ f, check_alias db (normalise_title raw) = .ok (some f) →
        match_or_create_film ratio client db raw = .ok (f, db))
    ∧ (∀ f, check_alias db (normalise_title raw) = .ok none →
        fuzzy_match ratio db (normalise_title raw) = some f →
        match_or_create_film ratio client db raw =
          .ok (f, { db with aliases := db.aliases ++ [⟨normalise_title raw, f.id⟩] }))
    ∧ (∀ f db1, check_alias db (normalise_title raw) = .ok none →
        fuzzy_match ratio db (normalise_title raw) = none →
        create_from_tmdb client db (normalise_title raw) = .ok (some f, db1) →
        match_or_create_film ratio client db raw =
          .ok (f, { db1 with aliases := db1.aliases ++ [⟨normalise_title raw, f.id⟩] }))
    ∧ (∀ f db1 db2, check_alias db (normalise_title raw) = .ok none →
        fuzzy_match ratio db (normalise_title raw) = none →
        create_from_tmdb client db (normalise_title raw) = .ok (none, db1) →
        create_placeholder db1 (normalise_title raw) = .ok (f, db2) →
        match_or_create_film ratio client db raw =
          .ok (f, { db2 with aliases := db2.aliases ++ [⟨normalise_title raw, f.id⟩] })) := by
  refine ⟨?_, ?_, ?_, ?_⟩
  · intro f hca
    simp only [match_or_create_film, hca, bind, Except.bind]
  · intro f hca hfz
    have hno := no_alias_of_check_none db _ hfk hca
    have hmem := fuzzy_match_mem ratio db _ f hfz
    have hfkf : db.films.any (fun g => g.id == f.id) = true :=
      List.any_eq_true.mpr ⟨f, hmem, by simp⟩
    simp only [match_or_create_film, hca, hfz, bind, Except.bind,
      store_alias_inserts db _ f.id hno hfkf]
  · intro f db1 hca hfz hct
    have hno := no_alias_of_check_none db _ hfk hca
    obtain ⟨⟨hal, _⟩, _, hsome⟩ := create_from_tmdb_ok client db _ _ hct
    obtain ⟨hmem, _⟩ := hsome f rfl
    have hno1 : db1.aliases.filter
        (fun a => a.normalized_title == normalise_title raw) = [] := by
      rw [show db1.aliases = db.aliases from hal]
      exact hno
    have hfkf : db1.films.any (fun g => g.id == f.id) = true :=
      List.any_eq_true.mpr ⟨f, hmem, by simp⟩
    simp only [match_or_create_film, hca, hfz, hct, bind, Except.bind,
      store_alias_inserts db1 _ f.id hno1 hfkf]
  · intro f db1 db2 hca hfz hct hcp
    have hno := no_alias_of_check_none db _ hfk hca
    obtain ⟨⟨hal, _⟩, hnone, _⟩ := create_from_tmdb_ok client db _ _ hct
    obtain ⟨⟨hal2, _⟩, hmem, _⟩ := create_placeholder_ok db1 _ _ hcp
    have hno2 : db2.aliases.filter
        (fun a => a.normalized_title == normalise_title raw) = [] := by
      rw [show db2.aliases = db1.aliases from hal2,
          show db1.aliases = db.aliases from hal]
      exact hno
    have hfkf : db2.films.any (fun g => g.id == f.id) = true :=
      List.any_eq_true.mpr ⟨f, hmem, by simp⟩
    simp only [match_or_create_film, hca, hfz, hct, hcp, bind, Except.bind,
      store_alias_inserts db2 _ f.id hno2 hfkf]

def ratioExact : String → String → ℚ := fun a b => if a = b then 100 else 0

def nosfFilm : Film :=
  ⟨"nosferatu", "Nosferatu", none, none, none, none, none, none, none, none⟩

/-- Witness for C1: a fuzzy-stage hit stores the alias before returning. -/
theorem match_or_create_film_stages_witness :
    match_or_create_film ratioExact nullClient ⟨[nosfFilm], [], []⟩ "Nosferatu" =
      .ok (nosfFilm, ⟨[nosfFilm], [⟨"Nosferatu", "nosferatu"⟩], []⟩) :=
  (match_or_create_film_stages ratioExact nullClient ⟨[nosfFilm], [], []⟩ "Nosferatu"
      rfl).2.1 nosfFilm rfl (by decide)

/-! ## Claim C2 — sequential idempotence of resolution -/

/-- With no pre-existing alias row for the title and the foreign key intact, a
successful `match_or_create_film` returns a film of the final store, appends
exactly the one alias `(title ↦ film id)`, and touches no showing; the film
list is unchanged or gains the returned film, whose id was previously free. -/
theorem match_or_create_film_ok_fresh (ratio : String → String → ℚ)
    (client : TMDbClient) (db : DBState) (raw : String) (f : Film) (db1 : DBState)
    (hfk : aliasFilmExists db = true)
    (hfresh : db.aliases.filter
      (fun a => a.normalized_title == normalise_title raw) = [])
    (h : match_or_create_film ratio client db raw = .ok (f, db1)) :
    f ∈ db1.films ∧
    (db1.films = db.films ∨ (db1.films = db.films ++ [f] ∧
      db.films.any (fun g => g.id == f.id) = false)) ∧
    db1.showings = db.showings ∧
    db1.aliases = db.aliases ++ [⟨normalise_title raw, f.id⟩] := by
  have hca : check_alias db (normalise_title raw) = .ok none := by
    rw [check_alias, aliasJoin, hfresh]
    rfl
  simp only [match_or_create_film, hca, bind, Except.bind] at h
  cases hfz : fuzzy_match ratio db (normalise_title raw) with
  | some g =>
    simp only [hfz] at h
    have hmem := fuzzy_match_mem ratio db _ g hfz
    have hfkf : db.films.any (fun x => x.id == g.id) = true :=
      List.any_eq_true.mpr ⟨g, hmem, by simp⟩
    rw [store_alias_inserts db _ g.id hfresh hfkf] at h
    simp only [Except.ok.injEq, Prod.mk.injEq] at h
    obtain ⟨hfg, hdb⟩ := h
    subst hfg
    subst hdb
    exact ⟨hmem, Or.inl rfl, rfl, rfl⟩
  | none =>
    simp only [hfz] at h
    cases hct : create_from_tmdb client db (normalise_title raw) with
    | error e =>
      simp only [hct] at h
      cases h
    | ok r =>
      obtain ⟨ra, rdb⟩ := r
      cases ra with
      | some g =>
        simp only [hct] at h
        obtain ⟨⟨hal, hsh⟩, _, hsome⟩ := create_from_tmdb_ok client db _ _ hct
        simp only [] at hal hsh
        obtain ⟨hmem, hcase⟩ := hsome g rfl
        simp only [] at hmem hcase
        have hno1 : rdb.aliases.filter
            (fun a => a.normalized_title == normalise_title raw) = [] := by
          rw [hal]
          exact hfresh
        have hfkf : rdb.films.any (fun x => x.id == g.id) = true :=
          List.any_eq_true.mpr ⟨g, hmem, by simp⟩
        rw [store_alias_inserts rdb _ g.id hno1 hfkf] at h
        simp only [Except.ok.injEq, Prod.mk.injEq] at h
        obtain ⟨hfg, hdb⟩ := h
        subst hfg
        subst hdb
        rcases hcase with hc | ⟨hc, hfree⟩
        · subst hc
          exact ⟨hmem, Or.inl rfl, rfl, rfl⟩
        · refine ⟨hmem, Or.inr ⟨?_, hfree⟩, ?_, ?_⟩
          · show rdb.films = db.films ++ [g]
            rw [hc]
          · show rdb.showings = db.showings
            exact hsh
          · show rdb.aliases ++ _ = _
            rw [hal]
      | none =>
        simp only [hct] at h
        obtain ⟨_, hnone, _⟩ := create_from_tmdb_ok client db _ _ hct
        have hrdb : rdb = db := by
          have := hnone rfl
          simpa using this
        subst hrdb
        cases hcp : create_placeholder rdb (normalise_title raw) with
        | error e =>
          simp only [hcp] at h
          cases h
        | ok r2 =>
          simp only [hcp] at h
          obtain ⟨g, db2⟩ := r2
          obtain ⟨⟨hal2, hsh2⟩, hmem, hcase⟩ := create_placeholder_ok rdb _ _ hcp
          simp only [] at hal2 hsh2 hmem hcase
          have hno2 : db2.aliases.filter
              (fun a => a.normalized_title == normalise_title raw) = [] := by
            rw [hal2]
            exact hfresh
          have hfkf : db2.films.any (fun x => x.id == g.id) = true :=
            List.any_eq_true.mpr ⟨g, hmem, by simp⟩
          rw [store_alias_inserts db2 _ g.id hno2 hfkf] at h
          simp only [Except.ok.injEq, Prod.mk.injEq] at h
          obtain ⟨hfg, hdb⟩ := h
          subst hfg
          subst hdb
          rcases hcase with hc | ⟨hc, hfree⟩
          · subst hc
            exact ⟨hmem, Or.inl rfl, hsh2, rfl⟩
          · refine ⟨hmem, Or.inr ⟨?_, hfree⟩, ?_, ?_⟩
            · show db2.films = rdb.films ++ [g]
              rw [hc]
            · show db2.showings = rdb.showings
              exact hsh2
            · show db2.aliases ++ _ = _
              rw [hal2]

theorem unique_filter_mem {α β : Type} [BEq β] [LawfulBEq β] (key : α → β) :
    ∀ (l : List α), uniqueKeys key l = true → ∀ a ∈ l,
      l.filter (fun x => key x == key a) = [a] := by
  intro l
  induction l with
  | nil => intro _ a ha; cases ha
  | cons x xs ih =>
    intro h a ha
    simp only [uniqueKeys, Bool.and_eq_true] at h
    obtain ⟨hall, hxs⟩ := h
    rcases List.mem_cons.mp ha with h2 | h2
    · subst h2
      rw [List.filter_cons_of_pos (by simp)]
      have hnil : xs.filter (fun x => key x == key a) = [] := by
        rw [List.filter_eq_nil_iff]
        intro y hy
        have := List.all_eq_true.mp hall y hy
        simp only [Bool.not_eq_true'] at this
        simp [this]
      rw [hnil]
    · have hxa : (key x == key a) = false := by
        have := List.all_eq_true.mp hall a h2
        simp only [Bool.not_eq_true'] at this
        rw [beq_eq_false_iff_ne] at this ⊢
        exact fun hc => this hc.symm
      rw [List.filter_cons_of_neg (by simp [hxa])]
      exact ih hxs a h2

/-- **C2.**  With the store invariants intact and no alias row yet for the
normalized title, a successful resolution followed by a second resolution of
the same raw title returns the very same film (hence the same id) with the
store unchanged, and the two calls together create exactly one TitleAlias row
for that normalized title. -/
theorem match_or_create_film_idempotent (ratio : String → String → ℚ)
    (client : TMDbClient) (db : DBState) (raw : String) (f1 : Film) (db1 : DBState)
    (hids : filmsIdUnique db = true)
    (hfk : aliasFilmExists db = true)
    (hfresh : db.aliases.filter
      (fun a => a.normalized_title == normalise_title raw) = [])
    (h1 : match_or_create_film ratio client db raw = .ok (f1, db1)) :
    match_or_create_film ratio client db1 raw = .ok (f1, db1)
    ∧ db1.aliases = db.aliases ++ [⟨normalise_title raw, f1.id⟩]
    ∧ (db1.aliases.filter
        (fun a => a.normalized_title == normalise_title raw)).length = 1 := by
  obtain ⟨hmem, hfilms, hsh, hal⟩ :=
    match_or_create_film_ok_fresh ratio client db raw f1 db1 hfk hfresh h1
  have hfilter1 : db1.aliases.filter
      (fun a => a.normalized_title == normalise_title raw) =
      [⟨normalise_title raw, f1.id⟩] := by
    rw [hal, List.filter_append, hfresh]
    simp [List.filter]
  have hfind : db1.films.filter (fun g => g.id == f1.id) = [f1] := by
    rcases hfilms with hf | ⟨hf, hfree⟩
    · rw [hf]
      rw [hf] at hmem
      exact unique_filter_mem Film.id db.films hids f1 hmem
    · rw [hf, List.filter_append]
      have h0 : db.films.filter (fun g => g.id == f1.id) = [] := by
        rw [List.filter_eq_nil_iff]
        intro g hg
        have := List.any_eq_false.mp (by exact hfree) g hg
        simpa using this
      rw [h0]
      simp [List.filter]
  have hca1 : check_alias db1 (normalise_title raw) = .ok (some f1) := by
    rw [check_alias, aliasJoin, hfilter1]
    simp only [List.flatMap_cons, List.flatMap_nil, List.append_nil]
    rw [hfind]
    rfl
  refine ⟨?_, hal, by rw [hfilter1]; rfl⟩
  simp only [match_or_create_film, hca1, bind, Except.bind]

/-- Witness for C2: resolving "Nosferatu" twice on a one-film store. -/
theorem match_or_create_film_idempotent_witness :
    match_or_create_film ratioExact nullClient
        ⟨[nosfFilm], [⟨"Nosferatu", "nosferatu"⟩], []⟩ "Nosferatu" =
      .ok (nosfFilm, ⟨[nosfFilm], [⟨"Nosferatu", "nosferatu"⟩], []⟩)
    ∧ (⟨[nosfFilm], [⟨"Nosferatu", "nosferatu"⟩], []⟩ : DBState).aliases =
        [⟨"Nosferatu", "nosferatu"⟩]
    ∧ ((⟨[nosfFilm], [⟨"Nosferatu", "nosferatu"⟩], []⟩ : DBState).aliases.filter
        (fun a => a.normalized_title == normalise_title "Nosferatu")).length = 1 :=
  match_or_create_film_idempotent ratioExact nullClient ⟨[nosfFilm], [], []⟩
    "Nosferatu" nosfFilm ⟨[nosfFilm], [⟨"Nosferatu", "nosferatu"⟩], []⟩
    rfl rfl rfl rfl

/-! ## Claim C5 — placeholder reconciliation

The claim (and spec §4.5, and the script's own docstring) describes an
intended merge: re-point each showing and alias of the placeholder unless
the target already owns an equivalent row (then delete it), and delete the
placeholder film.  With `autoflush=False` the program does not do that: the
re-points stay pending while the bulk film `DELETE` executes immediately and
its `ON DELETE CASCADE` removes the placeholder's showings and aliases
server-side, so the commit's re-point `UPDATE`s match zero rows and raise
`StaleDataError` — the transaction rolls back and nothing persists.  Proved:
whenever some placeholder has a merge target and at least one
non-conflicting showing (a showing the claim says is re-pointed), the
non-dry-run run ends in `StaleDataError`. -/

theorem scalarOneOrNone_of_len_le_one {α : Type} (l : List α)
    (h : l.length ≤ 1) : ∃ v, scalarOneOrNone l = .ok v := by
  cases l with
  | nil => exact ⟨none, rfl⟩
  | cons a t =>
    cases t with
    | nil => exact ⟨some a, rfl⟩
    | cons b t2 =>
      simp only [List.length_cons] at h
      omega

theorem uniqueKeys_pairwise {α β : Type} [BEq β] [LawfulBEq β] (key : α → β) :
    ∀ (l : List α), uniqueKeys key l = true →
      l.Pairwise (fun a b => key a ≠ key b) := by
  intro l
  induction l with
  | nil => intro _; exact List.Pairwise.nil
  | cons x xs ih =>
    intro h
    simp only [uniqueKeys, Bool.and_eq_true] at h
    refine List.pairwise_cons.mpr ⟨?_, ih h.2⟩
    intro b hb hc
    have := List.all_eq_true.mp h.1 b hb
    simp only [Bool.not_eq_true'] at this
    rw [beq_eq_false_iff_ne] at this
    exact this hc.symm

theorem uniqueKeys_inj {α β : Type} [BEq β] [LawfulBEq β] (key : α → β) :
    ∀ (l : List α), uniqueKeys key l = true →
      ∀ x ∈ l, ∀ y ∈ l, key x = key y → x = y := by
  intro l
  induction l with
  | nil => intro _ x hx; cases hx
  | cons z zs ih =>
    intro h x hx y hy hk
    simp only [uniqueKeys, Bool.and_eq_true] at h
    obtain ⟨hall, hrest⟩ := h
    rcases List.mem_cons.mp hx with hx2 | hx2 <;>
      rcases List.mem_cons.mp hy with hy2 | hy2
    · rw [hx2, hy2]
    · subst hx2
      have hne := List.all_eq_true.mp hall y hy2
      simp only [Bool.not_eq_true'] at hne
      rw [beq_eq_false_iff_ne] at hne
      exact absurd hk (fun hc => hne hc.symm)
    · subst hy2
      have hne := List.all_eq_true.mp hall x hx2
      simp only [Bool.not_eq_true'] at hne
      rw [beq_eq_false_iff_ne] at hne
      exact absurd hk hne
    · exact ih hrest x hx2 y hy2 hk

theorem filter_key_len_le_one {α β : Type} [BEq β] [LawfulBEq β] (key : α → β)
    (p : α → Bool) (c : β) (hp : ∀ x, p x = true → key x = c) :
    ∀ (l : List α), l.Pairwise (fun a b => key a ≠ key b) →
      (l.filter p).length ≤ 1 := by
  intro l
  induction l with
  | nil => intro _; simp
  | cons x xs ih =>
    intro hpw
    obtain ⟨hx, hxs⟩ := List.pairwise_cons.mp hpw
    by_cases hpx : p x
    · rw [List.filter_cons_of_pos hpx]
      have hnil : xs.filter p = [] := by
        rw [List.filter_eq_nil_iff]
        intro y hy hpy
        exact hx y hy (by rw [hp x hpx, hp y hpy])
      rw [hnil]
      simp
    · rw [List.filter_cons_of_neg hpx]
      exact ih hxs

theorem eq_singleton_of_len_le_one {α : Type} (l : List α) (a : α)
    (ha : a ∈ l) (h : l.length ≤ 1) : l = [a] := by
  cases l with
  | nil => cases ha
  | cons x t =>
    cases t with
    | nil =>
      have h2 := List.mem_singleton.mp ha
      rw [h2]
    | cons b t2 =>
      simp only [List.length_cons] at h
      omega

/-- The reconcile loop only deletes rows server-side, so the transaction
state stays a sublist of the initial database in all three tables. -/
def subDB (s db : DBState) : Prop :=
  s.films.Sublist db.films ∧ s.aliases.Sublist db.aliases
    ∧ s.showings.Sublist db.showings

theorem subDB_step (db r2server rserver : DBState) (q : Film)
    (hd : r2server = rserver ∨ r2server =
        ⟨rserver.films.filter (fun f => !(f.id == q.id)),
         rserver.aliases.filter (fun al => !(al.film_id == q.id)),
         rserver.showings.filter (fun sh => !(sh.film_id == q.id))⟩)
    (hsub : subDB rserver db) : subDB r2server db := by
  rcases hd with hd | hd
  · rw [hd]
    exact hsub
  · rw [hd]
    exact ⟨List.Sublist.trans (List.filter_sublist _) hsub.1,
           List.Sublist.trans (List.filter_sublist _) hsub.2.1,
           List.Sublist.trans (List.filter_sublist _) hsub.2.2⟩

/-- Under the schema's uniqueness constraints every `scalar_one_or_none` of
the target lookup succeeds. -/
theorem reconcileTarget_ok (db server : DBState) (q : Film)
    (hfu : filmsIdUnique db = true) (hau : aliasTitleUnique db = true)
    (hsub : subDB server db) :
    ∃ v, reconcileTarget server q = .ok v := by
  have hpwA : server.aliases.Pairwise
      (fun a b => a.normalized_title ≠ b.normalized_title) :=
    List.Pairwise.sublist hsub.2.1
      (uniqueKeys_pairwise FilmAlias.normalized_title db.aliases hau)
  have hpwF : server.films.Pairwise (fun a b => a.id ≠ b.id) :=
    List.Pairwise.sublist hsub.1 (uniqueKeys_pairwise Film.id db.films hfu)
  have hlenA := filter_key_len_le_one FilmAlias.normalized_title
    (fun a => a.normalized_title == normalise_title q.title && !(a.film_id == q.id))
    (normalise_title q.title)
    (fun x hx => by
      simp only [Bool.and_eq_true, beq_iff_eq] at hx
      exact hx.1)
    server.aliases hpwA
  simp only [reconcileTarget]
  apply scalarOneOrNone_of_len_le_one
  cases hfa : server.aliases.filter
      (fun a => a.normalized_title == normalise_title q.title
        && !(a.film_id == q.id)) with
  | nil => simp [hfa]
  | cons a t =>
    have ht : t = [] := by
      rw [hfa] at hlenA
      cases t with
      | nil => rfl
      | cons b t2 =>
        simp only [List.length_cons] at hlenA
        omega
    subst ht
    simp only [List.flatMap_cons, List.flatMap_nil, List.append_nil,
      List.length_map]
    exact filter_key_len_le_one Film.id
      (fun f => f.id == a.film_id && f.tmdb_id.isSome) a.film_id
      (fun x hx => by
        simp only [Bool.and_eq_true, beq_iff_eq] at hx
        exact hx.1)
      server.films hpwF

/-- The showings re-point pass succeeds, and every showing of the todo list
whose conflict check comes up empty ends up pending an `UPDATE`. -/
theorem stalePointShowings_ok (db server : DBState) (realId : String)
    (hsu : showingKeyUnique db = true)
    (hsub : server.showings.Sublist db.showings) :
    ∀ todo, ∃ l, stalePointShowings server realId todo = .ok l
      ∧ ∀ ps ∈ todo, server.showings.filter (fun t =>
          t.cinema_id == ps.cinema_id && t.film_id == realId
            && t.start_time == ps.start_time) = [] → ps ∈ l := by
  have hpw : server.showings.Pairwise (fun a b =>
      (a.cinema_id, a.film_id, a.start_time)
        ≠ (b.cinema_id, b.film_id, b.start_time)) :=
    List.Pairwise.sublist hsub
      (uniqueKeys_pairwise (fun s : Showing => (s.cinema_id, s.film_id, s.start_time))
        db.showings hsu)
  intro todo
  induction todo with
  | nil =>
    refine ⟨[], rfl, ?_⟩
    intro ps hps
    cases hps
  | cons ps rest ih =>
    obtain ⟨l, hl, hmem⟩ := ih
    obtain ⟨v, hv⟩ := scalarOneOrNone_of_len_le_one _
      (filter_key_len_le_one
        (fun s : Showing => (s.cinema_id, s.film_id, s.start_time))
        (fun t => t.cinema_id == ps.cinema_id && t.film_id == realId
          && t.start_time == ps.start_time)
        (ps.cinema_id, realId, ps.start_time)
        (fun x hx => by
          simp only [Bool.and_eq_true, beq_iff_eq] at hx
          simp only [hx.1.1, hx.1.2, hx.2])
        server.showings hpw)
    cases v with
    | some c =>
      refine ⟨l, ?_, ?_⟩
      · simp only [stalePointShowings, hv, hl, bind, Except.bind]
      · intro x hx hfil
        rcases List.mem_cons.mp hx with h2 | h2
        · subst h2
          rw [hfil] at hv
          simp [scalarOneOrNone] at hv
        · exact hmem x h2 hfil
    | none =>
      refine ⟨ps :: l, ?_, ?_⟩
      · simp only [stalePointShowings, hv, hl, bind, Except.bind]
      · intro x hx hfil
        rcases List.mem_cons.mp hx with h2 | h2
        · subst h2
          exact List.mem_cons_self _ _
        · exact List.mem_cons_of_mem _ (hmem x h2 hfil)

/-- The alias re-point pass succeeds under the unique-title constraint. -/
theorem stalePointAliases_ok (db server : DBState) (realId : String)
    (hau : aliasTitleUnique db = true)
    (hsub : server.aliases.Sublist db.aliases) :
    ∀ todo, ∃ l, stalePointAliases server realId todo = .ok l := by
  have hpw : server.aliases.Pairwise
      (fun a b => a.normalized_title ≠ b.normalized_title) :=
    List.Pairwise.sublist hsub
      (uniqueKeys_pairwise FilmAlias.normalized_title db.aliases hau)
  intro todo
  induction todo with
  | nil => exact ⟨[], rfl⟩
  | cons st rest ih =>
    obtain ⟨l, hl⟩ := ih
    obtain ⟨v, hv⟩ := scalarOneOrNone_of_len_le_one _
      (filter_key_len_le_one FilmAlias.normalized_title
        (fun a => a.normalized_title == st.normalized_title && a.film_id == realId)
        st.normalized_title
        (fun x hx => by
          simp only [Bool.and_eq_true, beq_iff_eq] at hx
          exact hx.1)
        server.aliases hpw)
    cases v with
    | some c =>
      refine ⟨l, ?_⟩
      simp only [stalePointAliases, hv, hl, bind, Except.bind]
    | none =>
      refine ⟨st :: l, ?_⟩
      simp only [stalePointAliases, hv, hl, bind, Except.bind]

/-- One loop iteration always succeeds: the server state is either untouched
(kept) or loses the placeholder's rows to the cascade, and the pending
re-points only grow. -/
theorem mergePlaceholder_ok (db : DBState) (r : ReconRun) (q : Film)
    (hfu : filmsIdUnique db = true) (hau : aliasTitleUnique db = true)
    (hsu : showingKeyUnique db = true) (hsub : subDB r.server db) :
    ∃ r2, mergePlaceholder r q false = .ok r2
      ∧ (r2.server = r.server ∨ r2.server =
          ⟨r.server.films.filter (fun f => !(f.id == q.id)),
           r.server.aliases.filter (fun al => !(al.film_id == q.id)),
           r.server.showings.filter (fun sh => !(sh.film_id == q.id))⟩)
      ∧ ∃ t, r2.pendShowings = r.pendShowings ++ t := by
  obtain ⟨v, hv⟩ := reconcileTarget_ok db r.server q hfu hau hsub
  cases v with
  | none =>
    refine ⟨{ r with kept := r.kept + 1 }, ?_, Or.inl rfl, [], by simp⟩
    simp only [mergePlaceholder, hv, bind, Except.bind]
  | some a =>
    obtain ⟨updS, hS, _⟩ := stalePointShowings_ok db r.server a.film_id hsu
      hsub.2.2 (r.server.showings.filter (fun s => s.film_id == q.id))
    obtain ⟨updA, hA⟩ := stalePointAliases_ok db r.server a.film_id hau
      hsub.2.1 (r.server.aliases.filter (fun al => al.film_id == q.id))
    refine ⟨{ server := ⟨r.server.films.filter (fun f => !(f.id == q.id)),
                        r.server.aliases.filter (fun al => !(al.film_id == q.id)),
                        r.server.showings.filter (fun sh => !(sh.film_id == q.id))⟩,
              pendShowings := r.pendShowings ++ updS,
              pendAliases := r.pendAliases ++ updA,
              merged := r.merged + 1, kept := r.kept },
            ?_, Or.inr rfl, updS, rfl⟩
    simp only [mergePlaceholder, hv, hS, hA, bind, Except.bind,
      Bool.false_eq_true, if_false]

/-- The whole loop always succeeds under the invariants, and its pending
re-points extend the initial ones. -/
theorem clean_loop_ok (db : DBState)
    (hfu : filmsIdUnique db = true) (hau : aliasTitleUnique db = true)
    (hsu : showingKeyUnique db = true) :
    ∀ (ps : List Film) (r : ReconRun), subDB r.server db →
      ∃ r2, clean_placeholders_loop false ps r = .ok r2
        ∧ ∃ t, r2.pendShowings = r.pendShowings ++ t := by
  intro ps
  induction ps with
  | nil =>
    intro r _
    exact ⟨r, rfl, [], by simp⟩
  | cons q rest ih =>
    intro r hsub
    obtain ⟨r1, h1, hd, t1, ht1⟩ := mergePlaceholder_ok db r q hfu hau hsu hsub
    obtain ⟨r2, h2, t2, ht2⟩ := ih r1 (subDB_step db r1.server r.server q hd hsub)
    refine ⟨r2, ?_, t1 ++ t2, ?_⟩
    · simp only [clean_placeholders_loop, h1, bind, Except.bind]
      exact h2
    · rw [ht2, ht1, List.append_assoc]

/-- If the snapshot still contains the placeholder `p` with its target alias
`a` (owned by the TMDb-backed film `f`) and a showing `s` of `p` that
conflicts with nothing of `f`, the loop ends with at least `s` pending a
re-point `UPDATE`. -/
theorem clean_loop_stale (db : DBState) (p f : Film) (a : FilmAlias) (s : Showing)
    (hfu : filmsIdUnique db = true) (hau : aliasTitleUnique db = true)
    (hsu : showingKeyUnique db = true)
    (hft : f.tmdb_id.isSome = true) (hfp : f.id ≠ p.id)
    (hat : a.normalized_title = normalise_title p.title)
    (haf : a.film_id = f.id) (hsp : s.film_id = p.id)
    (hfdb : f ∈ db.films)
    (hnoc : db.showings.filter (fun t => t.cinema_id == s.cinema_id
        && t.film_id == f.id && t.start_time == s.start_time) = []) :
    ∀ (ps : List Film) (r : ReconRun),
      subDB r.server db → p ∈ ps →
      ps.Pairwise (fun x y => x.id ≠ y.id) →
      (∀ q ∈ ps, q ∈ db.films ∧ q.tmdb_id = none) →
      a ∈ r.server.aliases → f ∈ r.server.films → s ∈ r.server.showings →
      ∃ r2, clean_placeholders_loop false ps r = .ok r2
        ∧ r2.pendShowings ≠ [] := by
  intro ps
  induction ps with
  | nil =>
    intro r _ hp
    cases hp
  | cons q rest ih =>
    intro r hsub hp hpw hqdb ha hf hs
    obtain ⟨hqhd, hpw2⟩ := List.pairwise_cons.mp hpw
    by_cases hqp : q = p
    · subst hqp
      have hpwA : r.server.aliases.Pairwise
          (fun x y => x.normalized_title ≠ y.normalized_title) :=
        List.Pairwise.sublist hsub.2.1
          (uniqueKeys_pairwise FilmAlias.normalized_title db.aliases hau)
      have hpwF : r.server.films.Pairwise (fun x y => x.id ≠ y.id) :=
        List.Pairwise.sublist hsub.1 (uniqueKeys_pairwise Film.id db.films hfu)
      have hfilA : r.server.aliases.filter
          (fun x => x.normalized_title == normalise_title q.title
            && !(x.film_id == q.id)) = [a] := by
        apply eq_singleton_of_len_le_one _ a
        · refine List.mem_filter.mpr ⟨ha, ?_⟩
          simp only [Bool.and_eq_true, beq_iff_eq]
          refine ⟨hat, ?_⟩
          simp only [Bool.not_eq_true']
          rw [haf, beq_eq_false_iff_ne]
          exact hfp
        · exact filter_key_len_le_one FilmAlias.normalized_title _
            (normalise_title q.title)
            (fun x hx => by
              simp only [Bool.and_eq_true, beq_iff_eq] at hx
              exact hx.1)
            r.server.aliases hpwA
      have hfilF : r.server.films.filter
          (fun g => g.id == a.film_id && g.tmdb_id.isSome) = [f] := by
        apply eq_singleton_of_len_le_one _ f
        · refine List.mem_filter.mpr ⟨hf, ?_⟩
          simp only [Bool.and_eq_true, beq_iff_eq]
          exact ⟨haf.symm, hft⟩
        · exact filter_key_len_le_one Film.id _ a.film_id
            (fun x hx => by
              simp only [Bool.and_eq_true, beq_iff_eq] at hx
              exact hx.1)
            r.server.films hpwF
      have htarget : reconcileTarget r.server q = .ok (some a) := by
        simp only [reconcileTarget, hfilA, List.flatMap_cons, List.flatMap_nil,
          List.append_nil, hfilF, List.map_cons, List.map_nil]
        rfl
      obtain ⟨updS, hS, hSmem⟩ := stalePointShowings_ok db r.server a.film_id hsu
        hsub.2.2 (r.server.showings.filter (fun x => x.film_id == q.id))
      obtain ⟨updA, hA⟩ := stalePointAliases_ok db r.server a.film_id hau
        hsub.2.1 (r.server.aliases.filter (fun al => al.film_id == q.id))
      have hsmem : s ∈ updS := by
        apply hSmem s
        · exact List.mem_filter.mpr ⟨hs, beq_iff_eq.mpr hsp⟩
        · rw [haf]
          have hsubf := List.Sublist.filter (fun t =>
              t.cinema_id == s.cinema_id && t.film_id == f.id
                && t.start_time == s.start_time) hsub.2.2
          rw [hnoc] at hsubf
          exact List.sublist_nil.mp hsubf
      have hmerge : mergePlaceholder r q false = .ok
          { server := ⟨r.server.films.filter (fun g => !(g.id == q.id)),
                       r.server.aliases.filter (fun al => !(al.film_id == q.id)),
                       r.server.showings.filter (fun x => !(x.film_id == q.id))⟩,
            pendShowings := r.pendShowings ++ updS,
            pendAliases := r.pendAliases ++ updA,
            merged := r.merged + 1, kept := r.kept } := by
        simp only [mergePlaceholder, htarget, hS, hA, bind, Except.bind,
          Bool.false_eq_true, if_false]
      obtain ⟨r2, h2, t2, ht2⟩ := clean_loop_ok db hfu hau hsu rest
        { server := ⟨r.server.films.filter (fun g => !(g.id == q.id)),
                     r.server.aliases.filter (fun al => !(al.film_id == q.id)),
                     r.server.showings.filter (fun x => !(x.film_id == q.id))⟩,
          pendShowings := r.pendShowings ++ updS,
          pendAliases := r.pendAliases ++ updA,
          merged := r.merged + 1, kept := r.kept }
        (subDB_step db _ r.server q (Or.inr rfl) hsub)
      refine ⟨r2, ?_, ?_⟩
      · simp only [clean_placeholders_loop, hmerge, bind, Except.bind]
        exact h2
      · rw [ht2]
        show (r.pendShowings ++ updS) ++ t2 ≠ []
        exact List.ne_nil_of_mem
          (List.mem_append_left _ (List.mem_append_right _ hsmem))
    · have hpmem : p ∈ rest := by
        rcases List.mem_cons.mp hp with h2 | h2
        · exact absurd h2.symm hqp
        · exact h2
      have hqdb1 := hqdb q (List.mem_cons_self _ _)
      have hqf : q.id ≠ f.id := by
        intro hc
        have hqe : q = f := uniqueKeys_inj Film.id db.films hfu q hqdb1.1 f hfdb hc
        rw [hqe] at hqdb1
        rw [hqdb1.2] at hft
        simp at hft
      have hqpid : q.id ≠ p.id := hqhd p hpmem
      obtain ⟨r1, h1, hd, t1, ht1⟩ := mergePlaceholder_ok db r q hfu hau hsu hsub
      have ha1 : a ∈ r1.server.aliases := by
        rcases hd with hd | hd
        · rw [hd]
          exact ha
        · rw [hd]
          refine List.mem_filter.mpr ⟨ha, ?_⟩
          simp only [Bool.not_eq_true']
          rw [haf, beq_eq_false_iff_ne]
          exact fun hc => hqf hc.symm
      have hf1 : f ∈ r1.server.films := by
        rcases hd with hd | hd
        · rw [hd]
          exact hf
        · rw [hd]
          refine List.mem_filter.mpr ⟨hf, ?_⟩
          simp only [Bool.not_eq_true']
          rw [beq_eq_false_iff_ne]
          exact fun hc => hqf hc.symm
      have hs1 : s ∈ r1.server.showings := by
        rcases hd with hd | hd
        · rw [hd]
          exact hs
        · rw [hd]
          refine List.mem_filter.mpr ⟨hs, ?_⟩
          simp only [Bool.not_eq_true']
          rw [hsp, beq_eq_false_iff_ne]
          exact fun hc => hqpid hc.symm
      obtain ⟨r2, h2, hne⟩ := ih r1 (subDB_step db r1.server r.server q hd hsub)
        hpmem hpw2 (fun q2 hq2 => hqdb q2 (List.mem_cons_of_mem _ hq2)) ha1 hf1 hs1
      refine ⟨r2, ?_, hne⟩
      simp only [clean_placeholders_loop, h1, bind, Except.bind]
      exact h2

/-- **C5 (code bug).**  The claim describes the intended merge of
`clean_placeholders` (re-point showings and aliases, drop the conflicting
ones, delete the placeholder).  The program does not produce it: under
`autoflush=False`, the merge's re-points are still pending when the bulk
film delete cascades the placeholder's rows away, so whenever the claimed
merge would re-point at least one showing, the final commit's `UPDATE`
matches zero rows and the run raises `StaleDataError` — persisting
nothing — instead of the claimed merged state. -/
theorem clean_placeholders_stale_abort (db : DBState) (p f : Film)
    (a : FilmAlias) (s : Showing)
    (hfu : filmsIdUnique db = true) (hau : aliasTitleUnique db = true)
    (hsu : showingKeyUnique db = true)
    (hp : p ∈ db.films) (hpn : p.tmdb_id = none)
    (ha : a ∈ db.aliases) (hat : a.normalized_title = normalise_title p.title)
    (haf : a.film_id = f.id) (hf : f ∈ db.films) (hft : f.tmdb_id.isSome = true)
    (hfp : f.id ≠ p.id)
    (hs : s ∈ db.showings) (hsp : s.film_id = p.id)
    (hnoc : db.showings.filter (fun t => t.cinema_id == s.cinema_id
        && t.film_id == f.id && t.start_time == s.start_time) = []) :
    clean_placeholders db false = .error "StaleDataError" := by
  have hpairs : (db.films.filter (fun g => g.tmdb_id.isNone)).Pairwise
      (fun x y => x.id ≠ y.id) :=
    List.Pairwise.sublist (List.filter_sublist _)
      (uniqueKeys_pairwise Film.id db.films hfu)
  obtain ⟨r2, hloop, hne⟩ := clean_loop_stale db p f a s hfu hau hsu hft hfp hat
    haf hsp hf hnoc (db.films.filter (fun g => g.tmdb_id.isNone))
    ⟨db, [], [], 0, 0⟩
    ⟨List.Sublist.refl _, List.Sublist.refl _, List.Sublist.refl _⟩
    (List.mem_filter.mpr ⟨hp, by rw [hpn]; rfl⟩)
    hpairs
    (fun q hq => ⟨(List.mem_filter.mp hq).1, by
      have h2 := (List.mem_filter.mp hq).2
      rwa [Option.isNone_iff_eq_none] at h2⟩)
    ha hf hs
  simp only [clean_placeholders, hloop, bind, Except.bind, Bool.false_eq_true,
    if_false]
  have hie : r2.pendShowings.isEmpty = false := by
    cases hpd : r2.pendShowings with
    | nil => exact absurd hpd hne
    | cons x xs => rfl
  simp only [hie, Bool.false_and, Bool.false_eq_true, if_false]

def cwPlaceholder : Film :=
  ⟨"certain-women", "Film Club: Certain Women", none, none, none, none, none,
   none, none, none⟩

def cwReal : Film :=
  ⟨"certain-women-2016", "Certain Women", some 2016, some 99, none, none, none,
   none, none, none⟩

def cwAlias : FilmAlias := ⟨"Certain Women", "certain-women-2016"⟩

def cwShowingClean : Showing :=
  ⟨"c1", "certain-women", 20, none, none, none, none, none⟩

def cwDB : DBState :=
  ⟨[cwPlaceholder, cwReal], [cwAlias],
   [⟨"c1", "certain-women", 10, none, none, none, none, none⟩,
    ⟨"c1", "certain-women-2016", 10, none, none, none, none, none⟩,
    cwShowingClean]⟩

/-- Witness for C5: on `cwDB` — placeholder `certain-women` with one
conflicting and one clean showing, real film `certain-women-2016` owning the
alias for the normalized title — the claim predicts a persisted merge that
re-points the clean showing; the program instead aborts the run with
`StaleDataError`. -/
theorem clean_placeholders_stale_abort_witness :
    (cwPlaceholder ∈ cwDB.films ∧ cwShowingClean ∈ cwDB.showings)
    ∧ clean_placeholders cwDB false = .error "StaleDataError" :=
  ⟨⟨by decide, by decide⟩,
   clean_placeholders_stale_abort cwDB cwPlaceholder cwReal cwAlias
     cwShowingClean (by decide) (by decide) (by decide) (by decide) rfl
     (by decide) (by decide) rfl (by decide) rfl (by decide) (by decide) rfl
     (by decide)⟩

/-! ## Claim C6 — persistence of a cinema's showing batch -/

def scrapeDB : DBState := ⟨[boundaryFilm], [⟨"Film X", "film-x"⟩], []⟩

def rawX1 : RawShowing := ⟨"Film X", 1, none, none, none, none⟩

def rawX2 : RawShowing := ⟨"Film X", 2, none, none, none, none⟩

def conShowing : Showing := ⟨"c1", "film-x", 2, none, none, none, none, none⟩

/-- **C6, counterexample to the original claim.**  Two showings of one cinema
are committed in a single transaction: when the second collides with a
concurrently committed row, the rollback also discards the first, perfectly
valid showing (it is persisted when there is no collision), so one failing
insert does abort the persistence of its batch siblings. -/
theorem scrape_batch_not_isolated :
    (run_scrape_all ratioZero nullClient scrapeDB
        [⟨"c1", some [rawX1, rawX2], [conShowing]⟩]).showings.any
      (fun s => s.start_time == 1) = false
    ∧ (run_scrape_all ratioZero nullClient scrapeDB
        [⟨"c1", some [rawX1, rawX2], []⟩]).showings.any
      (fun s => s.start_time == 1) = true :=
  ⟨by decide, by decide⟩

theorem keyMem_append_left (k : String × String × Int) (l1 l2 : List Showing)
    (h : keyMem k l1 = true) : keyMem k (l1 ++ l2) = true := by
  simp only [keyMem] at h
  simp only [keyMem, List.any_append, h, Bool.true_or]

theorem keyMem_updateRow (k : String × String × Int) (e v : Showing)
    (hkey : showingKey v = showingKey e) :
    ∀ (l : List Showing), keyMem k l = true → keyMem k (updateRow e v l) = true := by
  intro l
  induction l with
  | nil => intro h; cases h
  | cons x xs ih =>
    intro h
    simp only [keyMem, List.any_cons, Bool.or_eq_true] at h
    simp only [updateRow]
    by_cases hx : x = e
    · rw [if_pos hx]
      simp only [keyMem, List.any_cons, Bool.or_eq_true]
      rcases h with h | h
      · left
        rw [hkey, ← hx]
        exact h
      · right
        exact h
    · rw [if_neg hx]
      simp only [keyMem, List.any_cons, Bool.or_eq_true]
      rcases h with h | h
      · left
        exact h
      · right
        exact ih h

/-- The committed rows and the transaction view both hold the key: the
invariant every batch operation preserves. -/
def keptKey (k : String × String × Int) (s : Sess) : Prop :=
  keyMem k s.committed.showings = true ∧ keyMem k s.txn.showings = true

theorem store_alias_sess_kept (concurrent : List Showing) (s : Sess)
    (nt fid : String) (k : String × String × Int) (h : keptKey k s) :
    keptKey k (store_alias_sess concurrent s nt fid).2 := by
  obtain ⟨hc, ht⟩ := h
  simp only [store_alias_sess]
  cases hsc : scalarOneOrNone (s.txn.aliases.filter
      (fun a => a.normalized_title == nt)) with
  | error e =>
    simp only []
    exact ⟨hc, ht⟩
  | ok v =>
    cases v with
    | some a =>
      simp only []
      exact ⟨hc, ht⟩
    | none =>
      simp only []
      by_cases hv : (!(s.txn.films.any (fun f => f.id == fid))
          || pendClash (s.txn.showings ++ concurrent) s.pend) = true
      · rw [if_pos hv]
        exact ⟨hc, ht⟩
      · rw [if_neg hv]
        exact ⟨hc, keyMem_append_left k _ _ ht⟩

theorem create_from_tmdb_sess_kept (client : TMDbClient)
    (concurrent : List Showing) (s : Sess) (nt : String)
    (k : String × String × Int) (h : keptKey k s) :
    keptKey k (create_from_tmdb_sess client concurrent s nt).2 := by
  obtain ⟨hc, ht⟩ := h
  simp only [create_from_tmdb_sess]
  cases client.search_film nt (findParenYear nt.data) with
  | none =>
    simp only []
    exact ⟨hc, ht⟩
  | some tmdb_id =>
    simp only []
    cases client.get_film_details tmdb_id with
    | none =>
      simp only []
      exact ⟨hc, ht⟩
    | some details =>
      simp only []
      split
      · split
        · exact ⟨hc, hc⟩
        · exact ⟨hc, hc⟩
      · exact ⟨hc, keyMem_append_left k _ _ ht⟩

theorem create_placeholder_sess_kept (concurrent : List Showing) (s : Sess)
    (nt : String) (k : String × String × Int) (h : keptKey k s) :
    keptKey k (create_placeholder_sess concurrent s nt).2 := by
  obtain ⟨hc, ht⟩ := h
  simp only [create_placeholder_sess]
  split
  · split
    · exact ⟨hc, hc⟩
    · exact ⟨hc, hc⟩
  · exact ⟨hc, keyMem_append_left k _ _ ht⟩

theorem match_film_sess_kept (ratio : String → String → ℚ) (client : TMDbClient)
    (concurrent : List Showing) (s : Sess) (raw : String)
    (k : String × String × Int) (h : keptKey k s) :
    keptKey k (match_film_sess ratio client concurrent s raw).2 := by
  simp only [match_film_sess]
  by_cases hf : s.failed = true
  · rw [if_pos hf]
    exact h
  · rw [if_neg hf]
    cases hca : check_alias s.txn (normalise_title raw) with
    | error e =>
      simp only []
      exact h
    | ok v =>
      cases v with
      | some film =>
        simp only []
        exact h
      | none =>
        simp only []
        cases hfz : fuzzy_match ratio s.txn (normalise_title raw) with
        | some film =>
          simp only []
          cases hsa : store_alias_sess concurrent s (normalise_title raw) film.id with
          | mk r1 s1 =>
            have h2 := store_alias_sess_kept concurrent s (normalise_title raw)
              film.id k h
            rw [hsa] at h2
            cases r1 with
            | some u =>
              simp only []
              exact h2
            | none =>
              simp only []
              exact h2
        | none =>
          simp only []
          cases hct : create_from_tmdb_sess client concurrent s (normalise_title raw) with
          | mk r1 s1 =>
            have h2 := create_from_tmdb_sess_kept client concurrent s
              (normalise_title raw) k h
            rw [hct] at h2
            cases r1 with
            | none =>
              simp only []
              exact h2
            | some v2 =>
              cases v2 with
              | some film =>
                simp only []
                cases hsa : store_alias_sess concurrent s1 (normalise_title raw)
                    film.id with
                | mk r2 s2 =>
                  have h3 := store_alias_sess_kept concurrent s1
                    (normalise_title raw) film.id k h2
                  rw [hsa] at h3
                  cases r2 with
                  | some u =>
                    simp only []
                    exact h3
                  | none =>
                    simp only []
                    exact h3
              | none =>
                simp only []
                cases hcp : create_placeholder_sess concurrent s1
                    (normalise_title raw) with
                | mk r2 s2 =>
                  have h3 := create_placeholder_sess_kept concurrent s1
                    (normalise_title raw) k h2
                  rw [hcp] at h3
                  cases r2 with
                  | none =>
                    simp only []
                    exact h3
                  | some film =>
                    simp only []
                    cases hsa : store_alias_sess concurrent s2 (normalise_title raw)
                        film.id with
                    | mk r3 s3 =>
                      have h4 := store_alias_sess_kept concurrent s2
                        (normalise_title raw) film.id k h3
                      rw [hsa] at h4
                      cases r3 with
                      | some u =>
                        simp only []
                        exact h4
                      | none =>
                        simp only []
                        exact h4

theorem processBatch_kept (ratio : String → String → ℚ) (client : TMDbClient)
    (concurrent : List Showing) (cid : String) :
    ∀ (raws : List RawShowing) (s : Sess) (k : String × String × Int),
      keptKey k s → keptKey k (processBatch ratio client concurrent cid s raws) := by
  intro raws
  induction raws with
  | nil =>
    intro s k h
    exact h
  | cons r rest ih =>
    intro s k h
    simp only [processBatch]
    cases hm : match_film_sess ratio client concurrent s r.title with
    | mk res s1 =>
      have h1 := match_film_sess_kept ratio client concurrent s r.title k h
      rw [hm] at h1
      cases res with
      | none =>
        simp only []
        exact ih s1 k h1
      | some film =>
        simp only []
        cases hsc : scalarOneOrNone (s1.txn.showings.filter (fun t =>
            t.cinema_id == cid && t.film_id == film.id
              && t.start_time == r.start_time)) with
        | error e =>
          simp only []
          exact ih s1 k h1
        | ok v =>
          cases v with
          | some existing =>
            simp only []
            refine ih _ k ⟨h1.1, ?_⟩
            exact keyMem_updateRow k existing (applyRawUpdate r existing) rfl
              _ h1.2
          | none =>
            simp only []
            exact ih _ k h1

theorem commitBatch_kept (concurrent : List Showing) (s : Sess)
    (k : String × String × Int) (h : keptKey k s) :
    keyMem k (commitBatch concurrent s).showings = true := by
  simp only [commitBatch]
  split
  · exact keyMem_append_left k _ _ h.1
  · exact keyMem_append_left k _ _ (keyMem_append_left k _ _ h.2)

theorem processCinema_kept (ratio : String → String → ℚ) (client : TMDbClient)
    (db : DBState) (c : CinemaScrape) (k : String × String × Int)
    (h : keyMem k db.showings = true) :
    keyMem k (processCinema ratio client db c).showings = true := by
  obtain ⟨cid, fetched, conc⟩ := c
  cases fetched with
  | none => exact h
  | some raws =>
    exact commitBatch_kept conc _ k
      (processBatch_kept ratio client conc cid raws ⟨db, db, [], false⟩ k ⟨h, h⟩)

/-- A committed TMDb-backed film whose id collides with the next TMDb
creation of the batch. -/
def recFilmY : Film :=
  ⟨"film-y", "Film Y", none, some 9, none, none, none, none, none, none⟩

def recDB : DBState := ⟨[boundaryFilm, recFilmY], [⟨"Film X", "film-x"⟩], []⟩

def recDetails : TmdbDetails := ⟨some "Film Y", none, none, none, none, [], [], []⟩

/-- A TMDb client that matches "Film Y" and nothing else. -/
def recClient : TMDbClient :=
  ⟨fun nt _ => if nt = "Film Y" then some 9 else none,
   fun i => if i = 9 then some recDetails else none⟩

def rawFilmY : RawShowing := ⟨"Film Y", 2, none, none, none, none⟩

/-- **C6 (amended).**  In `run_scrape_all` the showing inserts are not
individually isolated: a cinema's batch is committed in one transaction, and
under `autoflush=False` (1) the duplicate check cannot see the batch's own
unflushed adds, so two identical raw showings collide at the commit and the
rollback discards the cinema's whole batch with no concurrent writer
involved, and (2) a uniqueness recovery inside the film matcher rolls the
transaction back mid-batch, silently discarding the showings pending so far
even though every resolution succeeds.  What does hold: rows already
committed keep their keys through any scrape, and a cinema whose scraping
fails is skipped without aborting the surrounding scrape. -/
theorem run_scrape_all_batch_semantics :
    ((run_scrape_all ratioZero nullClient scrapeDB
        [⟨"c1", some [rawX2, rawX2], []⟩]).showings = []
      ∧ (run_scrape_all ratioZero nullClient scrapeDB
          [⟨"c1", some [rawX2], []⟩]).showings = [newShowing "c1" rawX2 "film-x"])
    ∧ ((run_scrape_all ratioZero recClient recDB
          [⟨"c1", some [rawX1, rawFilmY], []⟩]).showings.any
        (fun s => s.start_time == 1) = false
      ∧ (run_scrape_all ratioZero recClient recDB
          [⟨"c1", some [rawX1], []⟩]).showings.any
        (fun s => s.start_time == 1) = true)
    ∧ (∀ (ratio : String → String → ℚ) (client : TMDbClient) (db : DBState)
        (cs : List CinemaScrape) (k : String × String × Int),
        keyMem k db.showings = true →
        keyMem k (run_scrape_all ratio client db cs).showings = true)
    ∧ (∀ (ratio : String → String → ℚ) (client : TMDbClient) (db : DBState)
        (c : CinemaScrape) (cs : List CinemaScrape), c.fetched = none →
        run_scrape_all ratio client db (c :: cs) =
          run_scrape_all ratio client db cs) := by
  refine ⟨⟨by decide, by decide⟩, ⟨by decide, by decide⟩, ?_, ?_⟩
  · intro ratio client db cs k
    induction cs generalizing db with
    | nil =>
      intro h
      exact h
    | cons c rest ih =>
      intro h
      simp only [run_scrape_all, List.foldl_cons]
      exact ih (processCinema ratio client db c)
        (processCinema_kept ratio client db c k h)
  · intro ratio client db c cs hc
    simp only [run_scrape_all, List.foldl_cons, processCinema, hc]

/-- Witness for C6 (amended): a committed key survives a scrape, and a
cinema without scraped showings is skipped without affecting the fold. -/
theorem run_scrape_all_batch_semantics_witness :
    keyMem (showingKey conShowing)
      (run_scrape_all ratioZero nullClient ⟨[], [], [conShowing]⟩
        [⟨"c1", none, []⟩]).showings = true
    ∧ run_scrape_all ratioZero nullClient scrapeDB [⟨"c2", none, []⟩] =
        run_scrape_all ratioZero nullClient scrapeDB [] :=
  ⟨run_scrape_all_batch_semantics.2.2.1 ratioZero nullClient ⟨[], [], [conShowing]⟩
      [⟨"c1", none, []⟩] (showingKey conShowing) (by decide),
   run_scrape_all_batch_semantics.2.2.2 ratioZero nullClient scrapeDB
      ⟨"c2", none, []⟩ [] rfl⟩
